import Mathlib

/-!
# dtmsvr: the asynchronous branch-status flusher

A shallow embedding of `updateBranchAsync` (dtmsvr/svr.go, lines 94-134) and the
properties of its batching, retry and recovery behaviour.

The worker is sequential code whose only sources of nondeterminism are the clock,
the producers that publish into `updateBranchAsyncChan`, and the Store.  They are
supplied as finite oracles:

* `Tick`: one evaluation of the collection loop condition, giving the value that
  `time.Since(started)` returns there and the events that producers have published
  since the previous evaluation;
* `StoreResult`: what one call of `GetStore().UpdateBranches` does.

A loop that needs an oracle entry when the oracle is used up stops with `Exit.pending`:
the run is a finite prefix of the real, unbounded execution.  Every function returns the
list of effects it performed, so that properties of prefixes can be stated as well.
-/

namespace Dtmsvr

/-! ## Durations

A Go `time.Duration` is an int64 count of nanoseconds; durations are integers here and
`wrapInt64` is applied where the code computes with them. -/

def Millisecond : Int := 1000000

def Second : Int := 1000000000

/-- Two's-complement wrap-around of an integer into the int64 range, as Go does on
signed overflow. -/
def wrapInt64 (x : Int) : Int :=
  (x + 9223372036854775808) % 18446744073709551616 - 9223372036854775808

/-- The value of `UpdateBranchAsyncInterval` set at line 95. -/
def UpdateBranchAsyncInterval : Int := wrapInt64 (200 * Millisecond)

/-- The value `checkInterval := 20 * time.Millisecond` of line 103. -/
def checkInterval : Int := wrapInt64 (20 * Millisecond)

/-! ## Data model -/

/-- Modelled from the spec: the declaration of `branchStatus` is not in
dtmsvr/svr.go; the fields are the ones read at lines 108-113 (the spec's BranchOutcomeEvent:
recordID, globalTransactionID, branchID, operationKind, outcomeStatus, finishedAt). -/
structure branchStatus where
  id : Nat
  gid : String
  branchID : String
  op : String
  status : String
  finishTime : Option Int
deriving DecidableEq, Repr

/-- Modelled from the spec: the declaration of `dtmutil.ModelBase` is not in
dtmsvr/svr.go; only the field `ID` is written at line 108, the others keep their zero value. -/
structure ModelBase where
  ID : Nat
deriving DecidableEq, Repr

/-- Modelled from the spec: the declaration of `TransBranch` is not in dtmsvr/svr.go;
the fields are the ones written by the literal at lines 107-114, every other field of the
record keeps its zero value. -/
structure TransBranch extends ModelBase where
  Gid : String
  BranchID : String
  Op : String
  Status : String
  FinishTime : Option Int
deriving DecidableEq, Repr

/-- The composite literal of lines 107-114. -/
def toTransBranch (updateBranch : branchStatus) : TransBranch :=
  { ID := updateBranch.id
    Gid := updateBranch.gid
    BranchID := updateBranch.branchID
    Op := updateBranch.op
    Status := updateBranch.status
    FinishTime := updateBranch.finishTime }

/-! ## Environment -/

/-- Where a runtime fault is injected in one round of the collection loop. -/
inductive Inject where
  | no
  | atCheck
  | inBody
deriving DecidableEq, Repr

/-- One evaluation of the loop condition of line 104. -/
structure Tick where
  /-- the value returned by `time.Since(started)` -/
  elapsed : Int
  /-- events published into the channel since the previous evaluation -/
  arrivals : List branchStatus
  /-- runtime fault injected in this round, if any -/
  fault : Inject
deriving DecidableEq, Repr

/-- What one call of `UpdateBranches` does: returns `(rowAffected, nil)`, returns a
non-nil error, or panics. -/
inductive StoreResult where
  | ok (rowAffected : Int)
  | err (msg : String)
  | fault
deriving DecidableEq, Repr

/-- The operations of the Store used in the file: `UpdateBranches` (line 119) and
`PopulateData` (line 91). -/
inductive StoreCall where
  | UpdateBranches (updates : List TransBranch) (fields : List String)
  | PopulateData (skipDrop : Bool)
deriving DecidableEq, Repr

/-- Which conjunct of the loop condition of line 104 was false when the collection loop
ended (`&&` evaluates the clock comparison first). -/
inductive Cut where
  | window
  | size
deriving DecidableEq, Repr

/-- The observable actions of the worker. -/
inductive Effect where
  /-- `case updateBranch := <-updateBranchAsyncChan` -/
  | recv (e : branchStatus)
  /-- `case <-time.After(d)` -/
  | after (d : Int)
  /-- the collection loop ended -/
  | cut (c : Cut)
  /-- a call to the Store and what it did -/
  | store (c : StoreCall) (r : StoreResult)
  /-- `logger.Errorf` of line 122 -/
  | logError (msg : String)
  /-- `logger.Infof` of line 125 -/
  | logInfo (n : Nat) (rowAffected : Int)
  /-- `time.Sleep(d)` -/
  | sleep (d : Int)
  /-- the deferred guard caught a panic -/
  | recovered
deriving DecidableEq, Repr

/-- How a piece of code was left. -/
inductive Exit where
  | returned
  | panicked
  | pending
deriving DecidableEq, Repr

/-- The state of one worker and of its environment. -/
structure State where
  /-- contents of the channel `updateBranchAsyncChan`, oldest first -/
  updateBranchAsyncChan : List branchStatus
  /-- the local variable `updates` of `flushBranchs` -/
  updates : List TransBranch
  /-- the clock and producer oracle that remains -/
  ticks : List Tick
  /-- the Store oracle that remains -/
  store : List StoreResult
deriving DecidableEq, Repr

/-- The result of running a piece of code. -/
structure Run where
  exit : Exit
  state : State
  trace : List Effect
deriving DecidableEq, Repr

/-- Put effects performed earlier in front of a run. -/
def Run.emit (es : List Effect) (r : Run) : Run :=
  { r with trace := es ++ r.trace }

/-- The field list of line 119. -/
def updateFields : List String := ["status", "finish_time", "update_time"]

/-! ## The code -/

/-- The collection loop, lines 104-117, for the current value `W` of the variable
`UpdateBranchAsyncInterval`.  A `select` with an event available takes the receive; with
the channel empty the 20ms timer fires. -/
def collectLoop (W : Int) : List Tick → State → Run
  | [], s => ⟨Exit.pending, { s with ticks := [] }, []⟩
  | t :: ts, s =>
    let q := s.updateBranchAsyncChan ++ t.arrivals
    if t.fault = Inject.atCheck then
      ⟨Exit.panicked, { s with updateBranchAsyncChan := q, ticks := ts }, []⟩
    else if t.elapsed < wrapInt64 (W - checkInterval) then
      if s.updates.length < 20 then
        match q with
        | e :: q1 =>
          let s1 : State :=
            { s with
                updateBranchAsyncChan := q1
                updates := s.updates ++ [toTransBranch e]
                ticks := ts }
          if t.fault = Inject.inBody then
            ⟨Exit.panicked, s1, [Effect.recv e]⟩
          else
            (collectLoop W ts s1).emit [Effect.recv e]
        | [] =>
          let s1 : State := { s with updateBranchAsyncChan := [], ticks := ts }
          if t.fault = Inject.inBody then
            ⟨Exit.panicked, s1, [Effect.after checkInterval]⟩
          else
            (collectLoop W ts s1).emit [Effect.after checkInterval]
      else
        ⟨Exit.returned, { s with updateBranchAsyncChan := q, ticks := ts },
          [Effect.cut Cut.size]⟩
    else
      ⟨Exit.returned, { s with updateBranchAsyncChan := q, ticks := ts },
        [Effect.cut Cut.window]⟩

/-- The commit loop, lines 118-128. -/
def commitLoop : List StoreResult → State → Run
  | [], s =>
    if 0 < s.updates.length then ⟨Exit.pending, { s with store := [] }, []⟩
    else ⟨Exit.returned, { s with store := [] }, []⟩
  | r :: rs, s =>
    if 0 < s.updates.length then
      let call := Effect.store (StoreCall.UpdateBranches s.updates updateFields) r
      match r with
      | StoreResult.ok rowAffected =>
        (commitLoop rs { s with updates := [], store := rs }).emit
          [call, Effect.logInfo s.updates.length rowAffected]
      | StoreResult.err msg =>
        (commitLoop rs { s with store := rs }).emit
          [call, Effect.logError msg, Effect.sleep (1 * Second)]
      | StoreResult.fault =>
        ⟨Exit.panicked, { s with store := rs }, [call]⟩
    else
      ⟨Exit.returned, { s with store := r :: rs }, []⟩

/-- The body of `flushBranchs`, lines 101-128, without the deferred guard. -/
def flushBody (W : Int) (s : State) : Run :=
  let c := collectLoop W s.ticks { s with updates := [] }
  match c.exit with
  | Exit.returned => (commitLoop c.state.store c.state).emit c.trace
  | _ => c

/-- Modelled from the spec: `dtmutil.RecoverPanic` is not in dtmsvr/svr.go.  The
spec: any unexpected runtime fault inside one iteration is caught, logged, and the loop
restarts a fresh iteration rather than terminating the worker. -/
def RecoverPanic (r : Run) : Run :=
  match r.exit with
  | Exit.panicked => ⟨Exit.returned, r.state, r.trace ++ [Effect.recovered]⟩
  | _ => r

/-- The closure `flushBranchs`, lines 99-130: the body under `defer dtmutil.RecoverPanic(nil)`. -/
def flushBranchs (W : Int) (s : State) : Run :=
  RecoverPanic (flushBody W s)

/-- The function `updateBranchAsync`, lines 98-134, run for at most `n` rounds of its
endless loop.  A panic that leaves `flushBranchs` ends the goroutine. -/
def updateBranchAsync (W : Int) : Nat → State → Run
  | 0, s => ⟨Exit.returned, s, []⟩
  | n + 1, s =>
    let r := flushBranchs W s
    match r.exit with
    | Exit.returned => (updateBranchAsync W n r.state).emit r.trace
    | _ => r

/-! ## Observations on traces -/

/-- The events received from the channel, in order. -/
def consumed : List Effect → List branchStatus
  | [] => []
  | Effect.recv e :: es => e :: consumed es
  | _ :: es => consumed es

/-- The batches of the calls of `UpdateBranches`, in order. -/
def batches : List Effect → List (List TransBranch)
  | [] => []
  | Effect.store (StoreCall.UpdateBranches b _) _ :: es => b :: batches es
  | _ :: es => batches es

/-- The batches of the successful calls of `UpdateBranches`, in order. -/
def commits : List Effect → List (List TransBranch)
  | [] => []
  | Effect.store (StoreCall.UpdateBranches b _) (StoreResult.ok _) :: es => b :: commits es
  | _ :: es => commits es

/-- The records committed, in commit order. -/
def committed (es : List Effect) : List TransBranch := (commits es).flatten

/-- The calls made to the Store, in order. -/
def storeCalls : List Effect → List StoreCall
  | [] => []
  | Effect.store c _ :: es => c :: storeCalls es
  | _ :: es => storeCalls es

/-- The backoff sleeps, in order. -/
def sleeps : List Effect → List Int
  | [] => []
  | Effect.sleep d :: es => d :: sleeps es
  | _ :: es => sleeps es

/-- The number of timed-out polls. -/
def timeouts : List Effect → Nat
  | [] => 0
  | Effect.after _ :: es => timeouts es + 1
  | _ :: es => timeouts es

/-- A sample event. -/
def ev (i : Nat) : branchStatus :=
  { id := i, gid := "g", branchID := "b", op := "action", status := "succeed",
    finishTime := some 7 }

/-- A tick with no arrival and no fault. -/
def quiet (d : Int) : Tick := { elapsed := d, arrivals := [], fault := Inject.no }

/-- The effects of one failed attempt to commit the batch `b`, lines 119-123. -/
def failedAttempt (b : List TransBranch) (msg : String) : List Effect :=
  [Effect.store (StoreCall.UpdateBranches b updateFields) (StoreResult.err msg),
   Effect.logError msg, Effect.sleep (1 * Second)]

/-- The effects of the successful attempt to commit the batch `b`, lines 119 and 125. -/
def successfulAttempt (b : List TransBranch) (rowAffected : Int) : List Effect :=
  [Effect.store (StoreCall.UpdateBranches b updateFields) (StoreResult.ok rowAffected),
   Effect.logInfo b.length rowAffected]

/-- The events `ev i`, ..., `ev (i + n - 1)`. -/
def evs (i n : Nat) : List branchStatus := (List.range n).map (fun k => ev (i + k))

/-- Three events, the third arriving while the first two are being received; the Store
fails once on the first batch. -/
def sampleRun : State :=
  { updateBranchAsyncChan := [ev 1, ev 2]
    updates := []
    ticks := [quiet 0, { elapsed := 1000, arrivals := [ev 3], fault := Inject.no },
              quiet 2000, quiet 20002000, quiet 180000000,
              quiet 0, quiet 190000000]
    store := [StoreResult.err "deadlock", StoreResult.ok 3, StoreResult.ok 0] }

/-- Five events queued, the window then elapsing; the Store fails twice and then
succeeds. -/
def fiveEvents : State :=
  { updateBranchAsyncChan := evs 1 5
    updates := []
    ticks := [quiet 0, quiet 10, quiet 20, quiet 30, quiet 40, quiet 50,
              quiet 20000050, quiet 180000000]
    store := [StoreResult.err "timeout", StoreResult.err "timeout", StoreResult.ok 5] }

/-- The clock model of the window cap, checked along one run of the collection loop
entered with queue `q` and `n` records collected: every reading of `time.Since(started)`
is at least `lo`, a reading after a receive is at least the reading before it, and a
reading after a timed-out poll is at least the reading before it plus `checkInterval`.
Readings taken after the loop has ended are not constrained. -/
def clockModel (W : Int) : Int → List Tick → List branchStatus → Nat → Bool
  | _, [], _, _ => true
  | lo, t :: ts, q, n =>
    decide (lo ≤ t.elapsed) &&
    (if t.elapsed < wrapInt64 (W - checkInterval) ∧ n < 20 then
      match q ++ t.arrivals with
      | [] => clockModel W (t.elapsed + checkInterval) ts [] n
      | _ :: q1 => clockModel W t.elapsed ts q1 (n + 1)
    else true)

/-- A quiet period: one event arrives 40ms after the start of the window, the clock is
read every 20ms. -/
def lowTraffic : State :=
  { updateBranchAsyncChan := []
    updates := []
    ticks := (List.range 30).map (fun i =>
      { elapsed := 20000000 * (i : Int), arrivals := if i = 2 then [ev 1] else [],
        fault := Inject.no })
    store := [StoreResult.ok 1] }

/-- A clock reading below the end of the collection window, with no arrival and no
injected fault. -/
def lowTick (W : Int) (t : Tick) : Prop :=
  t.elapsed < wrapInt64 (W - checkInterval) ∧ t.arrivals = [] ∧ t.fault = Inject.no

instance (W : Int) (t : Tick) : Decidable (lowTick W t) := by
  unfold lowTick; infer_instance

/-- The environment of one round that receives a full batch: the 20 events at the front
of the queue, the 21 clock readings of the round, and the `rowAffected` that the Store
returns. -/
structure Round where
  chunk : List branchStatus
  ticks : List Tick
  row : Int
deriving DecidableEq, Repr

/-- The effects of a round that receives a full batch and commits it at once. -/
def fullTrace (rd : Round) : List Effect :=
  rd.chunk.map Effect.recv ++
    Effect.cut Cut.size :: successfulAttempt (rd.chunk.map toTransBranch) rd.row

/-- For every successful commit of a trace, the cut that ended the collection before it
and the size of the batch. -/
def commitCuts : Option Cut → List Effect → List (Option Cut × Nat)
  | _, [] => []
  | _, Effect.cut c :: es => commitCuts (some c) es
  | last, Effect.store (StoreCall.UpdateBranches b _) (StoreResult.ok _) :: es =>
    (last, b.length) :: commitCuts last es
  | last, _ :: es => commitCuts last es

/-- Twenty events queued, a clock that stays at 1µs while they are received, then a second
window that elapses with nothing to receive. -/
def twentyQueued : State :=
  { updateBranchAsyncChan := evs 1 20
    updates := []
    ticks := List.replicate 21 (quiet 1000) ++
      (List.range 10).map (fun i => quiet (20000000 * (i : Int)))
    store := [StoreResult.ok 20, StoreResult.ok 0] }

/-- Twenty-five events queued: one full round, then five events and a window that elapses
after two timed-out polls. -/
def twentyFiveQueued : State :=
  { updateBranchAsyncChan := evs 1 25
    updates := []
    ticks := List.replicate 21 (quiet 1000) ++
      (List.replicate 5 (quiet 2000) ++ [quiet 3000, quiet 20003000] ++
        quiet 180000000 :: [])
    store := [StoreResult.ok 20, StoreResult.ok 5] }

/-- The effects of a round that receives the events `last`, fewer than 20, polls `j`
times in vain and is then cut by the window; the batch, if there is one, is committed at
once. -/
def lastTrace (last : List branchStatus) (j : Nat) (row : Int) : List Effect :=
  last.map Effect.recv ++
    (List.replicate j (Effect.after checkInterval) ++
      Effect.cut Cut.window ::
        (if last = [] then [] else successfulAttempt (last.map toTransBranch) row))

/-- An event is received and a runtime fault strikes in the body of the collection loop;
a second event arrives afterwards. -/
def faultyRound : State :=
  { updateBranchAsyncChan := [ev 1]
    updates := []
    ticks := [{ elapsed := 0, arrivals := [], fault := Inject.inBody },
              { elapsed := 0, arrivals := [ev 2], fault := Inject.no },
              quiet 180000000]
    store := [StoreResult.ok 1] }

/-- The Store panics on the first batch and succeeds afterwards; a second event arrives
after the panic. -/
def faultyStore : State :=
  { updateBranchAsyncChan := [ev 1]
    updates := []
    ticks := [quiet 0, quiet 180000000,
              { elapsed := 0, arrivals := [ev 2], fault := Inject.no },
              quiet 180000000, quiet 190000000]
    store := [StoreResult.fault, StoreResult.ok 1, StoreResult.ok 1] }

/-! ## Observations distribute over concatenation -/

@[simp] theorem emit_exit (es : List Effect) (r : Run) : (r.emit es).exit = r.exit := rfl

@[simp] theorem emit_state (es : List Effect) (r : Run) : (r.emit es).state = r.state := rfl

@[simp] theorem emit_trace (es : List Effect) (r : Run) :
    (r.emit es).trace = es ++ r.trace := rfl

theorem consumed_append (a b : List Effect) : consumed (a ++ b) = consumed a ++ consumed b := by
  induction a with
  | nil => rfl
  | cons x xs ih => cases x <;> simp [consumed, ih]

theorem storeCalls_append (a b : List Effect) :
    storeCalls (a ++ b) = storeCalls a ++ storeCalls b := by
  induction a with
  | nil => rfl
  | cons x xs ih => cases x <;> simp [storeCalls, ih]

theorem sleeps_append (a b : List Effect) : sleeps (a ++ b) = sleeps a ++ sleeps b := by
  induction a with
  | nil => rfl
  | cons x xs ih => cases x <;> simp [sleeps, ih]

theorem timeouts_append (a b : List Effect) : timeouts (a ++ b) = timeouts a + timeouts b := by
  induction a with
  | nil => simp [timeouts]
  | cons x xs ih =>
    cases x with
    | after d =>
      show timeouts (xs ++ b) + 1 = timeouts xs + 1 + timeouts b
      rw [ih]; omega
    | _ => simp [timeouts, ih]

theorem batches_append (a b : List Effect) : batches (a ++ b) = batches a ++ batches b := by
  induction a with
  | nil => rfl
  | cons x xs ih =>
    cases x with
    | store c r => cases c <;> simp [batches, ih]
    | _ => simp [batches, ih]

theorem commits_append (a b : List Effect) : commits (a ++ b) = commits a ++ commits b := by
  induction a with
  | nil => rfl
  | cons x xs ih =>
    cases x with
    | store c r => cases c <;> cases r <;> simp [commits, ih]
    | _ => simp [commits, ih]

theorem committed_append (a b : List Effect) :
    committed (a ++ b) = committed a ++ committed b := by
  simp [committed, commits_append]

/-! ## The collection loop -/

/-- What the collection loop does, whatever the clock, the producers and the faults:
it appends the converted received events to `updates`, never touches the Store, takes
events from the front of the queue and only then, and keeps the batch within the cap. -/
theorem collectLoop_spec (W : Int) (ts : List Tick) (s : State) :
    (collectLoop W ts s).state.updates
        = s.updates ++ (consumed (collectLoop W ts s).trace).map toTransBranch ∧
    storeCalls (collectLoop W ts s).trace = [] ∧
    batches (collectLoop W ts s).trace = [] ∧
    commits (collectLoop W ts s).trace = [] ∧
    sleeps (collectLoop W ts s).trace = [] ∧
    (collectLoop W ts s).state.store = s.store ∧
    (∃ used, ts = used ++ (collectLoop W ts s).state.ticks ∧
      consumed (collectLoop W ts s).trace ++ (collectLoop W ts s).state.updateBranchAsyncChan
        = s.updateBranchAsyncChan ++ (used.map Tick.arrivals).flatten) ∧
    (s.updates.length ≤ 20 → (collectLoop W ts s).state.updates.length ≤ 20) := by
  induction ts generalizing s with
  | nil =>
    refine ⟨?_, ?_, ?_, ?_, ?_, ?_, ⟨[], ?_, ?_⟩, ?_⟩ <;> simp [collectLoop, consumed, storeCalls, batches, commits, sleeps]
  | cons t ts ih =>
    unfold collectLoop
    by_cases hf : t.fault = Inject.atCheck
    · simp only [hf, if_true]
      refine ⟨?_, ?_, ?_, ?_, ?_, ?_, ⟨[t], ?_, ?_⟩, ?_⟩ <;> simp [consumed, storeCalls, batches, commits, sleeps]
    · simp only [hf, if_false]
      by_cases hw : t.elapsed < wrapInt64 (W - checkInterval)
      · simp only [hw, if_true]
        by_cases hl : s.updates.length < 20
        · simp only [hl, if_true]
          cases hq : s.updateBranchAsyncChan ++ t.arrivals with
          | nil =>
            simp only []
            by_cases hb : t.fault = Inject.inBody
            · simp only [hb, if_true]
              refine ⟨?_, ?_, ?_, ?_, ?_, ?_, ⟨[t], ?_, ?_⟩, ?_⟩ <;>
                simp [consumed, storeCalls, batches, commits, sleeps, hq]
            · simp only [hb, if_false]
              obtain ⟨h1, h2, h3, h4, h5, h6, ⟨used, h7, h8⟩, h9⟩ :=
                ih { s with updateBranchAsyncChan := [], ticks := ts }
              refine ⟨?_, ?_, ?_, ?_, ?_, ?_, ⟨t :: used, ?_, ?_⟩, ?_⟩
              · simpa [consumed] using h1
              · simpa [storeCalls] using h2
              · simpa [batches] using h3
              · simpa [commits] using h4
              · simpa [sleeps] using h5
              · simpa using h6
              · simpa using h7
              · simp only [emit_trace, emit_state, List.singleton_append, consumed,
                  List.map_cons, List.flatten_cons, ← List.append_assoc, hq]
                simpa using h8
              · intro _; simpa using h9 (by simpa using hl.le)
          | cons e q1 =>
            simp only []
            by_cases hb : t.fault = Inject.inBody
            · simp only [hb, if_true]
              refine ⟨?_, ?_, ?_, ?_, ?_, ?_, ⟨[t], ?_, ?_⟩, ?_⟩ <;>
                simp [consumed, storeCalls, batches, commits, sleeps, hq]
              omega
            · simp only [hb, if_false]
              obtain ⟨h1, h2, h3, h4, h5, h6, ⟨used, h7, h8⟩, h9⟩ :=
                ih { s with updateBranchAsyncChan := q1, updates := s.updates ++ [toTransBranch e], ticks := ts }
              refine ⟨?_, ?_, ?_, ?_, ?_, ?_, ⟨t :: used, ?_, ?_⟩, ?_⟩
              · simpa [consumed] using h1
              · simpa [storeCalls] using h2
              · simpa [batches] using h3
              · simpa [commits] using h4
              · simpa [sleeps] using h5
              · simpa using h6
              · simpa using h7
              · simp only [emit_trace, emit_state, List.singleton_append, consumed,
                  List.map_cons, List.flatten_cons, ← List.append_assoc, hq]
                simpa using h8
              · intro _; exact h9 (by simp; omega)
        · simp only [hl, if_false]
          refine ⟨?_, ?_, ?_, ?_, ?_, ?_, ⟨[t], ?_, ?_⟩, ?_⟩ <;>
            simp [consumed, storeCalls, batches, commits, sleeps]
      · simp only [hw, if_false]
        refine ⟨?_, ?_, ?_, ?_, ?_, ?_, ⟨[t], ?_, ?_⟩, ?_⟩ <;>
          simp [consumed, storeCalls, batches, commits, sleeps]

theorem collectLoop_effects (W : Int) (ts : List Tick) (s : State) :
    ∀ e ∈ (collectLoop W ts s).trace,
      (∃ x, e = Effect.recv x) ∨ e = Effect.after checkInterval ∨ (∃ c, e = Effect.cut c) := by
  induction ts generalizing s with
  | nil => simp [collectLoop]
  | cons t ts ih =>
    unfold collectLoop
    by_cases hf : t.fault = Inject.atCheck
    · simp [hf]
    · simp only [hf, if_false]
      by_cases hw : t.elapsed < wrapInt64 (W - checkInterval)
      · simp only [hw, if_true]
        by_cases hl : s.updates.length < 20
        · simp only [hl, if_true]
          cases hq : s.updateBranchAsyncChan ++ t.arrivals with
          | nil =>
            simp only []
            by_cases hb : t.fault = Inject.inBody
            · simp [hb]
            · simp only [hb, if_false]
              intro e he
              simp only [emit_trace, List.singleton_append, List.mem_cons] at he
              rcases he with rfl | he
              · exact Or.inr (Or.inl rfl)
              · exact ih _ e he
          | cons x q1 =>
            simp only []
            by_cases hb : t.fault = Inject.inBody
            · simp [hb]
            · simp only [hb, if_false]
              intro e he
              simp only [emit_trace, List.singleton_append, List.mem_cons] at he
              rcases he with rfl | he
              · exact Or.inl ⟨_, rfl⟩
              · exact ih _ e he
        · simp [hl]
      · simp [hw]

/-! ## The commit loop -/

/-- What the commit loop does, whatever the Store does: it receives nothing, leaves the
queue and the clock oracle alone, passes the batch it was entered with to every call,
with the field list of line 119, and ends with the batch either committed or still held. -/
theorem commitLoop_spec (rs : List StoreResult) (s : State) :
    consumed (commitLoop rs s).trace = [] ∧
    timeouts (commitLoop rs s).trace = 0 ∧
    (commitLoop rs s).state.updateBranchAsyncChan = s.updateBranchAsyncChan ∧
    (commitLoop rs s).state.ticks = s.ticks ∧
    (∀ b ∈ batches (commitLoop rs s).trace, b = s.updates ∧ 0 < b.length) ∧
    storeCalls (commitLoop rs s).trace
      = (batches (commitLoop rs s).trace).map (fun b => StoreCall.UpdateBranches b updateFields) ∧
    committed (commitLoop rs s).trace ++ (commitLoop rs s).state.updates = s.updates ∧
    ((commitLoop rs s).exit = Exit.returned → (commitLoop rs s).state.updates = []) ∧
    ((∀ r ∈ rs, r ≠ StoreResult.fault) → (commitLoop rs s).exit ≠ Exit.panicked) ∧
    (∃ used, rs = used ++ (commitLoop rs s).state.store) := by
  induction rs generalizing s with
  | nil =>
    unfold commitLoop
    split_ifs with h
    · simp [consumed, timeouts, batches, storeCalls, committed, commits]
    · have : s.updates = [] := by
        cases hu : s.updates with
        | nil => rfl
        | cons a l => simp [hu] at h
      simp [consumed, timeouts, batches, storeCalls, committed, commits, this]
  | cons r rs ih =>
    unfold commitLoop
    split_ifs with h
    · cases r with
      | ok n =>
        obtain ⟨h1, h2, h3, h4, h5, h6, h7, h8, h9, ⟨used, h10⟩⟩ :=
          ih { s with updates := [], store := rs }
        have hb : batches (commitLoop rs { s with updates := [], store := rs }).trace = [] := by
          cases hbs : batches (commitLoop rs { s with updates := [], store := rs }).trace with
          | nil => rfl
          | cons b l =>
            have := h5 b (by simp [hbs])
            simp only [this.1, List.length_nil, lt_self_iff_false, and_false] at this
        have hc : committed (commitLoop rs { s with updates := [], store := rs }).trace = []
            ∧ (commitLoop rs { s with updates := [], store := rs }).state.updates = [] := by
          simpa using h7
        refine ⟨?_, ?_, ?_, ?_, ?_, ?_, ?_, ?_, ?_, ⟨StoreResult.ok n :: used, ?_⟩⟩
        · simpa [consumed] using h1
        · simpa [timeouts] using h2
        · simpa using h3
        · simpa using h4
        · simp [batches, hb, h]
        · simp [batches, storeCalls, hb, h6]
        · simp only [emit_trace, emit_state, List.cons_append, List.nil_append]
          have hc1 := hc.1
          simp only [committed] at hc1 ⊢
          simp [commits, hc1, hc.2]
        · intro _; simpa using hc.2
        · intro hr; simpa using h9 (fun r hr2 => hr r (List.mem_cons_of_mem _ hr2))
        · simpa using h10
      | err msg =>
        obtain ⟨h1, h2, h3, h4, h5, h6, h7, h8, h9, ⟨used, h10⟩⟩ :=
          ih { s with store := rs }
        refine ⟨?_, ?_, ?_, ?_, ?_, ?_, ?_, ?_, ?_, ⟨StoreResult.err msg :: used, ?_⟩⟩
        · simpa [consumed] using h1
        · simpa [timeouts] using h2
        · simpa using h3
        · simpa using h4
        · intro b hb
          simp only [emit_trace, List.cons_append, List.nil_append, batches,
            List.mem_cons] at hb
          rcases hb with rfl | hb
          · exact ⟨rfl, h⟩
          · simpa using h5 b hb
        · simp [batches, storeCalls, h6]
        · simpa [committed, commits] using h7
        · intro hx; simpa using h8 (by simpa using hx)
        · intro hr; simpa using h9 (fun r hr2 => hr r (List.mem_cons_of_mem _ hr2))
        · simpa using h10
      | fault =>
        refine ⟨?_, ?_, ?_, ?_, ?_, ?_, ?_, ?_, ?_, ⟨[StoreResult.fault], ?_⟩⟩ <;>
          simp [consumed, timeouts, batches, storeCalls, committed, commits, h]
    · have : s.updates = [] := by
        cases hu : s.updates with
        | nil => rfl
        | cons a l => simp [hu] at h
      refine ⟨?_, ?_, ?_, ?_, ?_, ?_, ?_, ?_, ?_, ⟨[], ?_⟩⟩ <;>
        simp [consumed, timeouts, batches, storeCalls, committed, commits, this]

theorem collectLoop_noFault (W : Int) (ts : List Tick) (s : State)
    (h : ∀ t ∈ ts, t.fault = Inject.no) : (collectLoop W ts s).exit ≠ Exit.panicked := by
  induction ts generalizing s with
  | nil => simp [collectLoop]
  | cons t ts ih =>
    have ht : t.fault = Inject.no := h t (List.mem_cons_self _ _)
    have hts : ∀ t ∈ ts, t.fault = Inject.no := fun x hx => h x (List.mem_cons_of_mem _ hx)
    unfold collectLoop
    simp only [ht, reduceCtorEq, if_false]
    by_cases hw : t.elapsed < wrapInt64 (W - checkInterval)
    · simp only [hw, if_true]
      by_cases hl : s.updates.length < 20
      · simp only [hl, if_true]
        cases hq : s.updateBranchAsyncChan ++ t.arrivals with
        | nil => simpa using ih _ hts
        | cons x q1 => simpa using ih _ hts
      · simp [hl]
    · simp [hw]

/-! ## One call of `flushBranchs` -/

/-- The two shapes of the body: the collection loop did not return, or it returned and
the commit loop ran on its state. -/
theorem flushBody_cases (W : Int) (s : State) :
    ((collectLoop W s.ticks { s with updates := [] }).exit ≠ Exit.returned ∧
      flushBody W s = collectLoop W s.ticks { s with updates := [] }) ∨
    ((collectLoop W s.ticks { s with updates := [] }).exit = Exit.returned ∧
      flushBody W s =
        (commitLoop (collectLoop W s.ticks { s with updates := [] }).state.store
          (collectLoop W s.ticks { s with updates := [] }).state).emit
          (collectLoop W s.ticks { s with updates := [] }).trace) := by
  unfold flushBody
  cases h : (collectLoop W s.ticks { s with updates := [] }).exit <;> simp [h]

/-- What the body of `flushBranchs` does, whatever the environment does. -/
theorem flushBody_spec (W : Int) (s : State) :
    (∀ b ∈ batches (flushBody W s).trace,
      b = (consumed (flushBody W s).trace).map toTransBranch ∧ 1 ≤ b.length ∧ b.length ≤ 20) ∧
    storeCalls (flushBody W s).trace
      = (batches (flushBody W s).trace).map (fun b => StoreCall.UpdateBranches b updateFields) ∧
    committed (flushBody W s).trace ++ (flushBody W s).state.updates
      = (consumed (flushBody W s).trace).map toTransBranch ∧
    ((flushBody W s).exit = Exit.returned → (flushBody W s).state.updates = []) ∧
    (∃ used, s.ticks = used ++ (flushBody W s).state.ticks ∧
      consumed (flushBody W s).trace ++ (flushBody W s).state.updateBranchAsyncChan
        = s.updateBranchAsyncChan ++ (used.map Tick.arrivals).flatten) ∧
    (∃ used, s.store = used ++ (flushBody W s).state.store) ∧
    ((∀ t ∈ s.ticks, t.fault = Inject.no) → (∀ r ∈ s.store, r ≠ StoreResult.fault) →
      (flushBody W s).exit ≠ Exit.panicked) ∧
    Effect.recovered ∉ (flushBody W s).trace := by
  obtain ⟨c1, c2, c3, c4, c5, c6, ⟨cused, c7, c8⟩, c9⟩ :=
    collectLoop_spec W s.ticks { s with updates := [] }
  have ce := collectLoop_effects W s.ticks { s with updates := [] }
  rcases flushBody_cases W s with ⟨hx, hb⟩ | ⟨hx, hb⟩
  · rw [hb]
    refine ⟨?_, ?_, ?_, ?_, ⟨cused, c7, c8⟩, ⟨[], by simpa using c6.symm⟩, ?_, ?_⟩
    · simp [c3]
    · simp [c2, c3]
    · simpa [committed, c4] using c1
    · intro h; exact absurd h hx
    · intro h1 _; exact collectLoop_noFault W _ _ h1
    · intro hm
      rcases ce _ hm with ⟨x, hx⟩ | hx | ⟨c, hx⟩ <;> simp at hx
  · obtain ⟨m1, m2, m3, m4, m5, m6, m7, m8, m9, ⟨mused, m10⟩⟩ :=
      commitLoop_spec (collectLoop W s.ticks { s with updates := [] }).state.store
        (collectLoop W s.ticks { s with updates := [] }).state
    rw [hb]
    simp only [emit_trace, emit_state, emit_exit, consumed_append, batches_append,
      storeCalls_append, committed_append, m1, c2, c3, List.append_nil, List.nil_append]
    have c1s : (collectLoop W s.ticks { s with updates := [] }).state.updates
        = (consumed (collectLoop W s.ticks { s with updates := [] }).trace).map toTransBranch := by
      simpa using c1
    have c9s := c9 (by simp)
    refine ⟨?_, m6, ?_, m8, ⟨cused, ?_, ?_⟩, ⟨mused, ?_⟩, ?_, ?_⟩
    · intro b hb2
      obtain ⟨e1, e2⟩ := m5 b hb2
      refine ⟨by rw [e1, c1s], e2, by rw [e1]; exact c9s⟩
    · simp [committed, c4]
      simpa [committed, c1s] using m7
    · rw [m4]; exact c7
    · rw [m3]; exact c8
    · rw [← m10]; simpa using c6.symm
    · intro _ h2
      exact m9 (by rw [c6]; simpa using h2)
    · intro hm
      rcases List.mem_append.mp hm with hm | hm
      · rcases ce _ hm with ⟨x, hx⟩ | hx | ⟨c, hx⟩ <;> simp at hx
      · have : ∀ rs (st : State), Effect.recovered ∉ (commitLoop rs st).trace := by
          intro rs
          induction rs with
          | nil => intro st; unfold commitLoop; split_ifs <;> simp
          | cons r rs ih =>
            intro st
            unfold commitLoop
            split_ifs
            · cases r <;> simp [ih]
            · simp
        exact this _ _ hm

/-- The deferred guard changes neither the state nor what was received, sent to the
Store or slept; it turns a panic into a normal return. -/
theorem flushBranchs_obs (W : Int) (s : State) :
    (flushBranchs W s).state = (flushBody W s).state ∧
    consumed (flushBranchs W s).trace = consumed (flushBody W s).trace ∧
    batches (flushBranchs W s).trace = batches (flushBody W s).trace ∧
    storeCalls (flushBranchs W s).trace = storeCalls (flushBody W s).trace ∧
    committed (flushBranchs W s).trace = committed (flushBody W s).trace ∧
    sleeps (flushBranchs W s).trace = sleeps (flushBody W s).trace ∧
    timeouts (flushBranchs W s).trace = timeouts (flushBody W s).trace ∧
    (flushBranchs W s).exit ≠ Exit.panicked ∧
    ((flushBody W s).exit ≠ Exit.panicked → flushBranchs W s = flushBody W s) ∧
    ((flushBody W s).exit = Exit.panicked →
      flushBranchs W s
        = ⟨Exit.returned, (flushBody W s).state, (flushBody W s).trace ++ [Effect.recovered]⟩) := by
  unfold flushBranchs RecoverPanic
  cases h : (flushBody W s).exit <;>
    simp [h, consumed_append, batches_append, storeCalls_append, commits_append,
      sleeps_append, timeouts_append, consumed, batches, storeCalls, committed, commits,
      sleeps, timeouts]

/-! ## The worker -/

theorem updateBranchAsync_succ (W : Int) (n : Nat) (s : State) :
    updateBranchAsync W (n + 1) s =
      if (flushBranchs W s).exit = Exit.returned then
        (updateBranchAsync W n (flushBranchs W s).state).emit (flushBranchs W s).trace
      else flushBranchs W s := by
  show (match (flushBranchs W s).exit with
    | Exit.returned => (updateBranchAsync W n (flushBranchs W s).state).emit (flushBranchs W s).trace
    | _ => flushBranchs W s) = _
  cases h : (flushBranchs W s).exit <;> simp

/-- What the worker does in any number of rounds, whatever the environment does: no panic
leaves it, every batch it sends holds between 1 and 20 records, all of them converted
from events it received, every Store call is `UpdateBranches` with the field list of
line 119, and events leave the queue from the front only. -/
theorem updateBranchAsync_spec (W : Int) (n : Nat) (s : State) :
    (updateBranchAsync W n s).exit ≠ Exit.panicked ∧
    (∀ b ∈ batches (updateBranchAsync W n s).trace,
      1 ≤ b.length ∧ b.length ≤ 20 ∧
      b <:+: (consumed (updateBranchAsync W n s).trace).map toTransBranch) ∧
    storeCalls (updateBranchAsync W n s).trace
      = (batches (updateBranchAsync W n s).trace).map
          (fun b => StoreCall.UpdateBranches b updateFields) ∧
    (∃ used, s.ticks = used ++ (updateBranchAsync W n s).state.ticks ∧
      consumed (updateBranchAsync W n s).trace ++ (updateBranchAsync W n s).state.updateBranchAsyncChan
        = s.updateBranchAsyncChan ++ (used.map Tick.arrivals).flatten) ∧
    (∃ used, s.store = used ++ (updateBranchAsync W n s).state.store) := by
  induction n generalizing s with
  | zero =>
    refine ⟨?_, ?_, ?_, ⟨[], ?_, ?_⟩, ⟨[], ?_⟩⟩ <;>
      simp [updateBranchAsync, batches, storeCalls, consumed]
  | succ n ih =>
    obtain ⟨b1, b2, b3, b4, ⟨u1, b5, b6⟩, ⟨u2, b7⟩, b8, b9⟩ := flushBody_spec W s
    obtain ⟨o1, o2, o3, o4, o5, o6, o7, o8, o9, o10⟩ := flushBranchs_obs W s
    rw [← o1, ← o2] at b6
    rw [← o1] at b5 b7
    rw [← o2, ← o3] at b1
    rw [← o3, ← o4] at b2
    rw [updateBranchAsync_succ]
    split_ifs with hx
    · obtain ⟨i1, i2, i3, ⟨v1, i4, i5⟩, ⟨v2, i6⟩⟩ := ih (flushBranchs W s).state
      simp only [emit_exit, emit_trace, emit_state, batches_append, storeCalls_append,
        consumed_append, List.map_append, List.mem_append]
      refine ⟨i1, ?_, ?_, ⟨u1 ++ v1, ?_, ?_⟩, ⟨u2 ++ v2, ?_⟩⟩
      · intro b hb
        rcases hb with hb | hb
        · obtain ⟨e1, e2, e3⟩ := b1 b hb
          exact ⟨e2, e3,
            ⟨[], (consumed (updateBranchAsync W n (flushBranchs W s).state).trace).map
              toTransBranch, by rw [e1]; simp⟩⟩
        · obtain ⟨e1, e2, ⟨p, q, e3⟩⟩ := i2 b hb
          exact ⟨e1, e2,
            ⟨(consumed (flushBranchs W s).trace).map toTransBranch ++ p, q,
              by rw [← e3]; simp⟩⟩
      · rw [b2, i3]
      · rw [List.append_assoc, ← i4]; exact b5
      · rw [List.append_assoc, i5, ← List.append_assoc, b6]; simp
      · rw [List.append_assoc, ← i6]; exact b7
    · refine ⟨o8, ?_, b2, ⟨u1, b5, b6⟩, ⟨u2, b7⟩⟩
      intro b hb
      obtain ⟨e1, e2, e3⟩ := b1 b hb
      exact ⟨e2, e3, ⟨[], [], by rw [e1]; simp⟩⟩

/-- With no injected fault and a Store that never panics, what has been received is what
has been committed followed by the batch in flight, at every point of the run. -/
theorem updateBranchAsync_conserves (W : Int) (n : Nat) (s : State)
    (hu : s.updates = [])
    (ht : ∀ t ∈ s.ticks, t.fault = Inject.no)
    (hs : ∀ r ∈ s.store, r ≠ StoreResult.fault) :
    committed (updateBranchAsync W n s).trace ++ (updateBranchAsync W n s).state.updates
      = (consumed (updateBranchAsync W n s).trace).map toTransBranch ∧
    ((updateBranchAsync W n s).exit = Exit.returned →
      (updateBranchAsync W n s).state.updates = []) := by
  induction n generalizing s with
  | zero => simp [updateBranchAsync, committed, commits, consumed, hu]
  | succ n ih =>
    obtain ⟨b1, b2, b3, b4, ⟨u1, b5, b6⟩, ⟨u2, b7⟩, b8, b9⟩ := flushBody_spec W s
    obtain ⟨o1, o2, o3, o4, o5, o6, o7, o8, o9, o10⟩ := flushBranchs_obs W s
    have hbody := o9 (b8 ht hs)
    rw [updateBranchAsync_succ]
    split_ifs with hx
    · have hu2 : (flushBranchs W s).state.updates = [] := by
        rw [hbody] at hx ⊢; exact b4 hx
      have ht2 : ∀ t ∈ (flushBranchs W s).state.ticks, t.fault = Inject.no := by
        intro t hm; apply ht; rw [b5, ← o1]; exact List.mem_append_right _ hm
      have hs2 : ∀ r ∈ (flushBranchs W s).state.store, r ≠ StoreResult.fault := by
        intro r hm; apply hs; rw [b7, ← o1]; exact List.mem_append_right _ hm
      obtain ⟨i1, i2⟩ := ih (flushBranchs W s).state hu2 ht2 hs2
      simp only [emit_exit, emit_trace, emit_state, committed_append, consumed_append,
        List.map_append]
      refine ⟨?_, i2⟩
      rw [List.append_assoc, i1]
      have := b3
      rw [← hbody, hu2] at this
      simp at this
      rw [this]
    · rw [hbody]
      exact ⟨b3, b4⟩

/-! ## A run stops early only when an oracle is used up -/

theorem collectLoop_pending (W : Int) (ts : List Tick) (s : State)
    (h : (collectLoop W ts s).exit = Exit.pending) : (collectLoop W ts s).state.ticks = [] := by
  induction ts generalizing s with
  | nil => simp [collectLoop]
  | cons t ts ih =>
    revert h
    unfold collectLoop
    by_cases hf : t.fault = Inject.atCheck
    · simp [hf]
    · simp only [hf, if_false]
      by_cases hw : t.elapsed < wrapInt64 (W - checkInterval)
      · simp only [hw, if_true]
        by_cases hl : s.updates.length < 20
        · simp only [hl, if_true]
          cases hq : s.updateBranchAsyncChan ++ t.arrivals with
          | nil =>
            simp only []
            by_cases hb : t.fault = Inject.inBody
            · simp [hb]
            · simp only [hb, if_false, emit_exit, emit_state]; exact ih _
          | cons x q1 =>
            simp only []
            by_cases hb : t.fault = Inject.inBody
            · simp [hb]
            · simp only [hb, if_false, emit_exit, emit_state]; exact ih _
        · simp [hl]
      · simp [hw]

theorem commitLoop_pending (rs : List StoreResult) (s : State)
    (h : (commitLoop rs s).exit = Exit.pending) : (commitLoop rs s).state.store = [] := by
  induction rs generalizing s with
  | nil => unfold commitLoop; split_ifs <;> rfl
  | cons r rs ih =>
    revert h
    unfold commitLoop
    split_ifs
    · cases r with
      | ok n => simp only [emit_exit, emit_state]; exact ih _
      | err msg => simp only [emit_exit, emit_state]; exact ih _
      | fault => simp
    · simp

theorem flushBody_pending (W : Int) (s : State)
    (h : (flushBody W s).exit = Exit.pending) :
    (flushBody W s).state.ticks = [] ∨ (flushBody W s).state.store = [] := by
  rcases flushBody_cases W s with ⟨_, hb⟩ | ⟨_, hb⟩
  · rw [hb] at h ⊢; exact Or.inl (collectLoop_pending W _ _ h)
  · rw [hb] at h ⊢
    simp only [emit_exit, emit_state] at h ⊢
    exact Or.inr (commitLoop_pending _ _ h)

theorem updateBranchAsync_pending (W : Int) (n : Nat) (s : State)
    (h : (updateBranchAsync W n s).exit = Exit.pending) :
    (updateBranchAsync W n s).state.ticks = [] ∨ (updateBranchAsync W n s).state.store = [] := by
  induction n generalizing s with
  | zero => simp [updateBranchAsync] at h
  | succ n ih =>
    obtain ⟨o1, -, -, -, -, -, -, o8, o9, o10⟩ := flushBranchs_obs W s
    rw [updateBranchAsync_succ] at h ⊢
    split_ifs at h ⊢ with hx
    · simp only [emit_exit, emit_state] at h ⊢; exact ih _ h
    · have hp : (flushBody W s).exit ≠ Exit.panicked := by
        intro hp; rw [o10 hp] at h; simp at h
      rw [o9 hp] at h ⊢
      exact flushBody_pending W s h

/-! ## C1: no loss, no duplication, FIFO -/

/-- C1. For one worker, any window `W`, any number of rounds, any arrivals and clock, and
any Store that only succeeds or returns errors (no injected fault, no panic): at every
point of the run the records committed so far, in commit order, followed by the batch in
flight are exactly the events received so far, each converted field by field, in the
order received; when the last round has returned no batch is in flight, so the
concatenation of the successful batches equals the converted consumed events; a run
stops before its last round only when an oracle is used up; and the events received are
a prefix of the queue contents followed by the arrivals, the rest still being queued. -/
theorem C1_no_loss_no_duplication_fifo (W : Int) (n : Nat) (s : State)
    (hu : s.updates = [])
    (ht : ∀ t ∈ s.ticks, t.fault = Inject.no)
    (hs : ∀ r ∈ s.store, r ≠ StoreResult.fault) :
    committed (updateBranchAsync W n s).trace ++ (updateBranchAsync W n s).state.updates
      = (consumed (updateBranchAsync W n s).trace).map toTransBranch ∧
    ((updateBranchAsync W n s).exit = Exit.returned →
      committed (updateBranchAsync W n s).trace
        = (consumed (updateBranchAsync W n s).trace).map toTransBranch) ∧
    ((updateBranchAsync W n s).state.ticks ≠ [] → (updateBranchAsync W n s).state.store ≠ [] →
      (updateBranchAsync W n s).exit = Exit.returned) ∧
    (∃ used, s.ticks = used ++ (updateBranchAsync W n s).state.ticks ∧
      consumed (updateBranchAsync W n s).trace ++ (updateBranchAsync W n s).state.updateBranchAsyncChan
        = s.updateBranchAsyncChan ++ (used.map Tick.arrivals).flatten) ∧
    (∀ e : branchStatus,
      (toTransBranch e).ID = e.id ∧ (toTransBranch e).Gid = e.gid ∧
      (toTransBranch e).BranchID = e.branchID ∧ (toTransBranch e).Op = e.op ∧
      (toTransBranch e).Status = e.status ∧ (toTransBranch e).FinishTime = e.finishTime) := by
  obtain ⟨c1, c2⟩ := updateBranchAsync_conserves W n s hu ht hs
  obtain ⟨w1, -, -, w4, -⟩ := updateBranchAsync_spec W n s
  refine ⟨c1, ?_, ?_, w4, fun e => ⟨rfl, rfl, rfl, rfl, rfl, rfl⟩⟩
  · intro hx
    have := c2 hx
    rw [this] at c1
    simpa using c1
  · intro h1 h2
    cases hx : (updateBranchAsync W n s).exit with
    | returned => rfl
    | panicked => exact absurd hx w1
    | pending =>
      rcases updateBranchAsync_pending W n s hx with h | h
      · exact absurd h h1
      · exact absurd h h2

/-- C1 at a concrete run: three events, two rounds, one failed attempt. -/
theorem C1_witness :
    (updateBranchAsync UpdateBranchAsyncInterval 2 sampleRun).exit = Exit.returned ∧
    consumed (updateBranchAsync UpdateBranchAsyncInterval 2 sampleRun).trace
      = [ev 1, ev 2, ev 3] ∧
    commits (updateBranchAsync UpdateBranchAsyncInterval 2 sampleRun).trace
      = [[toTransBranch (ev 1), toTransBranch (ev 2), toTransBranch (ev 3)]] ∧
    committed (updateBranchAsync UpdateBranchAsyncInterval 2 sampleRun).trace
      = (consumed (updateBranchAsync UpdateBranchAsyncInterval 2 sampleRun).trace).map
          toTransBranch :=
  ⟨by decide, by decide, by decide,
    (C1_no_loss_no_duplication_fifo UpdateBranchAsyncInterval 2 sampleRun rfl
      (by decide) (by decide)).2.1 (by decide)⟩

/-! ## C2: retry until success with the same batch -/

theorem commitLoop_retry (msgs : List String) (row : Int) (rest : List StoreResult)
    (s : State) (h : s.updates ≠ []) :
    commitLoop (msgs.map StoreResult.err ++ StoreResult.ok row :: rest) s
      = ⟨Exit.returned, { s with updates := [], store := rest },
          (msgs.map (failedAttempt s.updates)).flatten ++ successfulAttempt s.updates row⟩ := by
  have hl : 0 < s.updates.length := List.length_pos.mpr h
  induction msgs generalizing s with
  | nil =>
    simp only [List.map_nil, List.nil_append, List.flatten_nil]
    unfold commitLoop
    simp only [hl, if_true]
    cases rest with
    | nil => simp [commitLoop, Run.emit, successfulAttempt]
    | cons r rs => simp [commitLoop, Run.emit, successfulAttempt]
  | cons m msgs ih =>
    simp only [List.map_cons, List.cons_append, List.flatten_cons]
    unfold commitLoop
    simp only [hl, if_true]
    have := ih { s with store := msgs.map StoreResult.err ++ StoreResult.ok row :: rest } h hl
    simp only at this
    rw [this]
    simp [Run.emit, failedAttempt]

theorem batches_failed (b : List TransBranch) (msgs : List String) :
    batches (msgs.map (failedAttempt b)).flatten = List.replicate msgs.length b ∧
    commits (msgs.map (failedAttempt b)).flatten = [] ∧
    sleeps (msgs.map (failedAttempt b)).flatten = List.replicate msgs.length (1 * Second) ∧
    consumed (msgs.map (failedAttempt b)).flatten = [] := by
  induction msgs with
  | nil => simp [batches, commits, sleeps, consumed]
  | cons m msgs ih =>
    obtain ⟨h1, h2, h3, h4⟩ := ih
    simp [failedAttempt, batches, commits, sleeps, consumed, List.replicate_succ] at *
    exact ⟨h1, h2, h3, h4⟩

/-- C2. When the collection loop of a call of `flushBranchs` has returned a non-empty
batch and the Store answers the first `k` calls with an error and call `k + 1` with
success, the call of `flushBranchs` returns after exactly `k` failed attempts, each
followed by a sleep of one second, and one successful attempt with no sleep after it:
`k + 1` calls of `UpdateBranches`, all with the same batch, `k` sleeps of one second and
one successful commit of that batch; the batch is then empty. -/
theorem C2_retry_same_batch_until_success (W : Int) (s : State) (msgs : List String)
    (row : Int) (rest : List StoreResult)
    (hc : (collectLoop W s.ticks { s with updates := [] }).exit = Exit.returned)
    (hb : (collectLoop W s.ticks { s with updates := [] }).state.updates ≠ [])
    (hst : s.store = msgs.map StoreResult.err ++ StoreResult.ok row :: rest) :
    flushBranchs W s
      = ⟨Exit.returned,
          { (collectLoop W s.ticks { s with updates := [] }).state with
              updates := [], store := rest },
          (collectLoop W s.ticks { s with updates := [] }).trace
            ++ ((msgs.map (failedAttempt
                  (collectLoop W s.ticks { s with updates := [] }).state.updates)).flatten
            ++ successfulAttempt
                  (collectLoop W s.ticks { s with updates := [] }).state.updates row)⟩ ∧
    batches (flushBranchs W s).trace
      = List.replicate (msgs.length + 1)
          (collectLoop W s.ticks { s with updates := [] }).state.updates ∧
    sleeps (flushBranchs W s).trace = List.replicate msgs.length 1000000000 ∧
    commits (flushBranchs W s).trace
      = [(collectLoop W s.ticks { s with updates := [] }).state.updates] := by
  obtain ⟨c1, c2, c3, c4, c5, c6, -, -⟩ := collectLoop_spec W s.ticks { s with updates := [] }
  have hbody := ((flushBody_cases W s).resolve_left (fun h => h.1 hc)).2
  have hstore : (collectLoop W s.ticks { s with updates := [] }).state.store
      = msgs.map StoreResult.err ++ StoreResult.ok row :: rest := by rw [c6]; exact hst
  rw [hstore, commitLoop_retry msgs row rest _ hb] at hbody
  have hfl : flushBranchs W s = flushBody W s := by
    apply (flushBranchs_obs W s).2.2.2.2.2.2.2.2.1
    rw [hbody]; simp [Run.emit]
  obtain ⟨f1, f2, f3, f4⟩ :=
    batches_failed (collectLoop W s.ticks { s with updates := [] }).state.updates msgs
  rw [hfl, hbody]
  refine ⟨by simp [Run.emit], ?_, ?_, ?_⟩
  · simp [Run.emit, batches_append, c3, f1, successfulAttempt, batches, List.replicate_succ']
  · simp [Run.emit, sleeps_append, c5, f3, successfulAttempt, sleeps, Second]
  · simp [Run.emit, commits_append, c4, f2, successfulAttempt, commits]

/-- C2 at the scenario of the spec: a batch of five events, two failures, then success:
three calls with the same five records, two sleeps of one second, one commit of five. -/
theorem C2_witness :
    (collectLoop UpdateBranchAsyncInterval fiveEvents.ticks
        { fiveEvents with updates := [] }).state.updates = (evs 1 5).map toTransBranch ∧
    batches (flushBranchs UpdateBranchAsyncInterval fiveEvents).trace
      = List.replicate (2 + 1)
          (collectLoop UpdateBranchAsyncInterval fiveEvents.ticks
            { fiveEvents with updates := [] }).state.updates ∧
    sleeps (flushBranchs UpdateBranchAsyncInterval fiveEvents).trace
      = List.replicate 2 1000000000 ∧
    commits (flushBranchs UpdateBranchAsyncInterval fiveEvents).trace
      = [(collectLoop UpdateBranchAsyncInterval fiveEvents.ticks
            { fiveEvents with updates := [] }).state.updates] :=
  ⟨by decide,
    (C2_retry_same_batch_until_success UpdateBranchAsyncInterval fiveEvents
      ["timeout", "timeout"] 5 [] (by decide) (by decide) (by decide)).2⟩

/-! ## C4: batch bounds -/

theorem mem_storeCalls (es : List Effect) (c : StoreCall) (r : StoreResult)
    (h : Effect.store c r ∈ es) : c ∈ storeCalls es := by
  induction es with
  | nil => simp at h
  | cons x xs ih =>
    rcases List.mem_cons.mp h with rfl | h2
    · simp [storeCalls]
    · have := ih h2
      cases x <;> simp [storeCalls, this]

theorem storeCalls_nil_of_consumed_nil (W : Int) (s : State)
    (h : consumed (flushBody W s).trace = []) : storeCalls (flushBody W s).trace = [] := by
  obtain ⟨b1, b2, -⟩ := flushBody_spec W s
  cases hb : batches (flushBody W s).trace with
  | nil => rw [b2, hb]; rfl
  | cons b l =>
    obtain ⟨e1, e2, -⟩ := b1 b (by simp [hb])
    rw [h] at e1
    simp [e1] at e2

/-- C4. Whatever the arrivals, the clock, the injected faults and the Store do: every
call that one call of `flushBranchs` makes to the Store, and every call that the worker
makes in any number of rounds, is `UpdateBranches` with a batch of at least 1 and at most
20 records; and a call of `flushBranchs` that receives no event makes no call to the
Store at all. -/
theorem C4_batch_bounds (W : Int) (s : State) :
    (∀ c r, Effect.store c r ∈ (flushBranchs W s).trace →
      ∃ b, c = StoreCall.UpdateBranches b updateFields ∧ 1 ≤ b.length ∧ b.length ≤ 20) ∧
    (∀ n c r, Effect.store c r ∈ (updateBranchAsync W n s).trace →
      ∃ b, c = StoreCall.UpdateBranches b updateFields ∧ 1 ≤ b.length ∧ b.length ≤ 20) ∧
    (consumed (flushBranchs W s).trace = [] →
      ∀ c r, Effect.store c r ∉ (flushBranchs W s).trace) := by
  obtain ⟨b1, b2, -⟩ := flushBody_spec W s
  obtain ⟨-, o2, o3, o4, -⟩ := flushBranchs_obs W s
  refine ⟨?_, ?_, ?_⟩
  · intro c r h
    have hm := mem_storeCalls _ c r h
    rw [o4, b2] at hm
    obtain ⟨b, hb, rfl⟩ := List.mem_map.mp hm
    exact ⟨b, rfl, (b1 b hb).2⟩
  · intro n c r h
    obtain ⟨-, w2, w3, -⟩ := updateBranchAsync_spec W n s
    have hm := mem_storeCalls _ c r h
    rw [w3] at hm
    obtain ⟨b, hb, rfl⟩ := List.mem_map.mp hm
    exact ⟨b, rfl, (w2 b hb).1, (w2 b hb).2.1⟩
  · intro hc c r h
    have hm := mem_storeCalls _ c r h
    rw [o4, storeCalls_nil_of_consumed_nil W s (by rw [← o2]; exact hc)] at hm
    simp at hm

/-! ## C8: only the outcome columns are updated -/

/-- C8. Whatever the environment does, every operation that the worker performs on the
Store, in any number of rounds, first attempts and retries alike, is `UpdateBranches`
with the field list `status`, `finish_time`, `update_time`, on a non-empty batch; no
other Store operation occurs in the trace. -/
theorem C8_only_outcome_columns (W : Int) (n : Nat) (s : State) :
    ∀ c r, Effect.store c r ∈ (updateBranchAsync W n s).trace →
      ∃ b, b ≠ [] ∧ c = StoreCall.UpdateBranches b ["status", "finish_time", "update_time"] := by
  intro c r h
  obtain ⟨-, w2, w3, -⟩ := updateBranchAsync_spec W n s
  have hm := mem_storeCalls _ c r h
  rw [w3] at hm
  obtain ⟨b, hb, rfl⟩ := List.mem_map.mp hm
  refine ⟨b, ?_, rfl⟩
  intro hnil
  have := (w2 b hb).1
  simp [hnil] at this

/-- C8 at a concrete run: the failed first attempt of `sampleRun` is in the trace and is
an `UpdateBranches` on the three outcome columns. -/
theorem C8_witness :
    Effect.store
        (StoreCall.UpdateBranches
          [toTransBranch (ev 1), toTransBranch (ev 2), toTransBranch (ev 3)] updateFields)
        (StoreResult.err "deadlock")
      ∈ (updateBranchAsync UpdateBranchAsyncInterval 2 sampleRun).trace ∧
    ∃ b, b ≠ [] ∧
      StoreCall.UpdateBranches
          [toTransBranch (ev 1), toTransBranch (ev 2), toTransBranch (ev 3)] updateFields
        = StoreCall.UpdateBranches b ["status", "finish_time", "update_time"] :=
  ⟨by decide,
    C8_only_outcome_columns UpdateBranchAsyncInterval 2 sampleRun _
      (StoreResult.err "deadlock") (by decide)⟩

/-! ## C7: no consumption while a batch is stuck -/

theorem consumed_suffix (a b : List Effect) (h : consumed (a ++ b) = []) :
    consumed b = [] := by
  rw [consumed_append] at h
  exact (List.append_eq_nil.mp h).2

theorem timeouts_suffix (a b : List Effect) (h : timeouts (a ++ b) = 0) :
    timeouts b = 0 := by
  rw [timeouts_append] at h
  omega

theorem commitLoop_stuck (msgs : List String) (s : State) (h : s.updates ≠ []) :
    commitLoop (msgs.map StoreResult.err) s
      = ⟨Exit.pending, { s with store := [] }, (msgs.map (failedAttempt s.updates)).flatten⟩ := by
  have hl : 0 < s.updates.length := List.length_pos.mpr h
  induction msgs generalizing s with
  | nil => simp [commitLoop, hl]
  | cons m msgs ih =>
    simp only [List.map_cons, List.flatten_cons]
    unfold commitLoop
    simp only [hl, if_true]
    have := ih { s with store := msgs.map StoreResult.err } h hl
    simp only at this
    rw [this]
    simp [Run.emit, failedAttempt]

/-- After the first Store call of a call of `flushBranchs`, that call receives nothing
and polls nothing. -/
theorem flushBody_after_store (W : Int) (s : State) (pre post : List Effect)
    (c : StoreCall) (r : StoreResult)
    (h : (flushBody W s).trace = pre ++ Effect.store c r :: post) :
    consumed post = [] ∧ timeouts post = 0 := by
  have ce := collectLoop_effects W s.ticks { s with updates := [] }
  have hnot : ∀ l : List Effect, Effect.store c r ∈ l →
      l ≠ (collectLoop W s.ticks { s with updates := [] }).trace ∧
      ∀ l2, l ++ l2 ≠ (collectLoop W s.ticks { s with updates := [] }).trace := by
    intro l hl
    refine ⟨?_, ?_⟩
    · intro he
      rcases ce _ (he ▸ hl) with ⟨x, hx⟩ | hx | ⟨c, hx⟩ <;> simp at hx
    · intro l2 he
      rcases ce _ (he ▸ List.mem_append_left _ hl) with ⟨x, hx⟩ | hx | ⟨c, hx⟩ <;> simp at hx
  rcases flushBody_cases W s with ⟨_, hb⟩ | ⟨_, hb⟩
  · rw [hb] at h
    exact absurd h.symm ((hnot (pre ++ Effect.store c r :: post) (by simp)).1)
  · rw [hb] at h
    obtain ⟨m1, m2, -⟩ :=
      commitLoop_spec (collectLoop W s.ticks { s with updates := [] }).state.store
        (collectLoop W s.ticks { s with updates := [] }).state
    simp only [emit_trace] at h
    rcases List.append_eq_append_iff.mp h with ⟨a, h1, h2⟩ | ⟨a, h1, h2⟩
    · rw [h2] at m1 m2
      rw [show a ++ Effect.store c r :: post = (a ++ [Effect.store c r]) ++ post by simp] at m1 m2
      exact ⟨consumed_suffix _ _ m1, timeouts_suffix _ _ m2⟩
    · cases a with
      | nil =>
        simp only [List.nil_append] at h2
        rw [← h2] at m1 m2
        rw [show Effect.store c r :: post = [Effect.store c r] ++ post by simp] at m1 m2
        exact ⟨consumed_suffix _ _ m1, timeouts_suffix _ _ m2⟩
      | cons x a =>
        simp only [List.cons_append, List.cons.injEq] at h2
        obtain ⟨rfl, h3⟩ := h2
        exact absurd h1.symm ((hnot (pre ++ [Effect.store c r]) (by simp)).2 a |> fun hh => by
          simpa using hh)

/-- C7. With a non-empty batch in flight: a failed attempt leaves the loop at a state
with the same queue and the same batch; whatever the Store does afterwards the commit
loop leaves the queue as it was, performs no receive and no poll, and passes the same
batch to every call; after any number of consecutive failures the batch is still held
and the queue untouched; and in a call of `flushBranchs` nothing is received or polled
after its first Store call. -/
theorem C7_no_consumption_while_stuck (s : State) (h : s.updates ≠ []) :
    (∀ msg rs, commitLoop (StoreResult.err msg :: rs) s
        = (commitLoop rs ⟨s.updateBranchAsyncChan, s.updates, s.ticks, rs⟩).emit (failedAttempt s.updates msg)) ∧
    (∀ rs, (commitLoop rs s).state.updateBranchAsyncChan = s.updateBranchAsyncChan ∧
        consumed (commitLoop rs s).trace = [] ∧ timeouts (commitLoop rs s).trace = 0 ∧
        ∀ b ∈ batches (commitLoop rs s).trace, b = s.updates) ∧
    (∀ msgs : List String,
        commitLoop (msgs.map StoreResult.err) s
          = ⟨Exit.pending, ⟨s.updateBranchAsyncChan, s.updates, s.ticks, []⟩,
              (msgs.map (failedAttempt s.updates)).flatten⟩) ∧
    (∀ W (s0 : State) pre c r post,
        (flushBranchs W s0).trace = pre ++ Effect.store c r :: post →
        consumed post = [] ∧ timeouts post = 0) := by
  have hl : 0 < s.updates.length := List.length_pos.mpr h
  refine ⟨?_, ?_, ?_, ?_⟩
  · intro msg rs
    rw [commitLoop]
    simp [hl, failedAttempt]
  · intro rs
    obtain ⟨m1, m2, m3, -, m5, -⟩ := commitLoop_spec rs s
    exact ⟨m3, m1, m2, fun b hb => (m5 b hb).1⟩
  · intro msgs
    exact commitLoop_stuck msgs s h
  · intro W s0 pre c r post htr
    obtain ⟨-, -, -, -, -, -, -, -, o9, o10⟩ := flushBranchs_obs W s0
    by_cases hp : (flushBody W s0).exit = Exit.panicked
    · rw [o10 hp] at htr
      simp only at htr
      rcases List.append_eq_append_iff.mp htr with ⟨a, h1, h2⟩ | ⟨a, h1, h2⟩
      · cases a with
        | nil => simp at h2
        | cons x a =>
          simp only [List.cons_append, List.cons.injEq] at h2
          cases a with
          | nil => simp at h2
          | cons y a => simp at h2
      · cases a with
        | nil => simp at h2
        | cons x a =>
          simp only [List.cons_append, List.cons.injEq] at h2
          obtain ⟨rfl, h3⟩ := h2
          obtain ⟨k1, k2⟩ := flushBody_after_store W s0 pre a c r h1
          rw [h3]
          simp [consumed_append, timeouts_append, k1, k2, consumed, timeouts]
    · rw [o9 hp] at htr
      exact flushBody_after_store W s0 pre post c r htr

/-- C7 at a concrete stuck batch: the batch of `fiveEvents` with three events queued
behind it and a Store that fails four times. -/
theorem C7_witness :
    (commitLoop (List.replicate 4 (StoreResult.err "down"))
        ⟨evs 6 3, (evs 1 5).map toTransBranch, [], List.replicate 4 (StoreResult.err "down")⟩).state.updateBranchAsyncChan
      = evs 6 3 ∧
    commitLoop ((List.replicate 4 "down").map StoreResult.err)
        ⟨evs 6 3, (evs 1 5).map toTransBranch, [], List.replicate 4 (StoreResult.err "down")⟩
      = ⟨Exit.pending, ⟨evs 6 3, (evs 1 5).map toTransBranch, [], []⟩,
          ((List.replicate 4 "down").map (failedAttempt ((evs 1 5).map toTransBranch))).flatten⟩ :=
  ⟨((C7_no_consumption_while_stuck
      ⟨evs 6 3, (evs 1 5).map toTransBranch, [], List.replicate 4 (StoreResult.err "down")⟩
      (by decide)).2.1 _).1,
   (C7_no_consumption_while_stuck
      ⟨evs 6 3, (evs 1 5).map toTransBranch, [], List.replicate 4 (StoreResult.err "down")⟩
      (by decide)).2.2.1 _⟩

/-! ## C5: window cap -/

theorem checkInterval_eq : checkInterval = 20000000 := by decide

theorem window_eq : wrapInt64 (UpdateBranchAsyncInterval - checkInterval) = 180000000 := by
  decide

/-- Termination of the collection loop under the clock model: with room for `m` more
records, a window that `k` timed-out polls exhaust, and `m + k + 1` ticks left. -/
theorem collectLoop_terminates (W : Int) (ts : List Tick) :
    ∀ (k m : Nat) (lo : Int) (s : State),
      s.updates.length + m = 20 →
      wrapInt64 (W - checkInterval) ≤ lo + k * 20000000 →
      m + k + 1 ≤ ts.length →
      clockModel W lo ts s.updateBranchAsyncChan s.updates.length = true →
      (∀ t ∈ ts, t.fault = Inject.no) →
      (collectLoop W ts s).exit = Exit.returned ∧
      (consumed (collectLoop W ts s).trace).length ≤ m ∧
      timeouts (collectLoop W ts s).trace ≤ k := by
  induction ts with
  | nil => intro k m lo s _ _ hlen; simp at hlen
  | cons t ts ih =>
    intro k m lo s hm hk hlen hclock hf
    have ht : t.fault = Inject.no := hf t (List.mem_cons_self _ _)
    have hts : ∀ t ∈ ts, t.fault = Inject.no := fun x hx => hf x (List.mem_cons_of_mem _ hx)
    have hlen2 : m + k ≤ ts.length := by simpa using hlen
    simp only [clockModel, Bool.and_eq_true, decide_eq_true_eq] at hclock
    obtain ⟨hlo, hrest⟩ := hclock
    have hlo2 : (lo : Int) ≤ (t.elapsed : Int) := hlo
    unfold collectLoop
    simp only [ht, reduceCtorEq, if_false]
    by_cases hw : t.elapsed < wrapInt64 (W - checkInterval)
    · have hw2 : (t.elapsed : Int) < wrapInt64 (W - checkInterval) := hw
      simp only [hw, if_true]
      by_cases hl : s.updates.length < 20
      · simp only [hl, if_true]
        simp only [hw, hl, and_self, if_true] at hrest
        cases hq : s.updateBranchAsyncChan ++ t.arrivals with
        | nil =>
          simp only [hq] at hrest
          cases k with
          | zero =>
            simp only [Nat.cast_zero, zero_mul, add_zero] at hk
            omega
          | succ k2 =>
            have hk2 : wrapInt64 (W - checkInterval)
                ≤ ((t.elapsed : Int) + 20000000) + k2 * 20000000 := by
              push_cast at hk; omega
            have := ih k2 m (t.elapsed + 20000000)
              { s with updateBranchAsyncChan := [], ticks := ts } hm hk2 (by omega)
              (by rw [checkInterval_eq] at hrest; exact hrest) hts
            exact ⟨this.1, this.2.1, Nat.succ_le_succ this.2.2⟩
        | cons e q1 =>
          simp only [hq] at hrest
          cases m with
          | zero => omega
          | succ m2 =>
            have hk2 : wrapInt64 (W - checkInterval) ≤ (t.elapsed : Int) + k * 20000000 := by
              omega
            have := ih k m2 t.elapsed
              { s with updateBranchAsyncChan := q1, updates := s.updates ++ [toTransBranch e], ticks := ts }
              (by simp; omega) hk2 (by omega)
              (by simpa using hrest) hts
            exact ⟨this.1, Nat.succ_le_succ this.2.1, this.2.2⟩
      · simp [hl, consumed, timeouts]
    · simp [hw, consumed, timeouts]

theorem commitLoop_first_call (r : StoreResult) (rs : List StoreResult) (s : State)
    (h : s.updates ≠ []) :
    ∃ tl, (commitLoop (r :: rs) s).trace
      = Effect.store (StoreCall.UpdateBranches s.updates updateFields) r :: tl := by
  have hl : 0 < s.updates.length := List.length_pos.mpr h
  unfold commitLoop
  simp only [hl, if_true]
  cases r <;> simp

/-- C5. With `UpdateBranchAsyncInterval` at its value of 200ms: in a run of the
collection loop in which the elapsed time starts at 0 or more, never decreases and grows
by at least 20ms over every timed-out poll, with no injected fault and 30 clock readings
available, the loop returns after at most 20 receives and at most 9 timed-out polls; the
batch is the converted received events; and if at least one event was received and the
Store answers, the next effect of the same call of `flushBranchs` is the call of
`UpdateBranches` with that batch. -/
theorem C5_window_cap (s : State)
    (hlen : 30 ≤ s.ticks.length)
    (hf : ∀ t ∈ s.ticks, t.fault = Inject.no)
    (hclock : clockModel UpdateBranchAsyncInterval 0 s.ticks s.updateBranchAsyncChan 0 = true) :
    (collectLoop UpdateBranchAsyncInterval s.ticks { s with updates := [] }).exit
      = Exit.returned ∧
    (consumed (collectLoop UpdateBranchAsyncInterval s.ticks
      { s with updates := [] }).trace).length ≤ 20 ∧
    timeouts (collectLoop UpdateBranchAsyncInterval s.ticks { s with updates := [] }).trace
      ≤ 9 ∧
    (collectLoop UpdateBranchAsyncInterval s.ticks { s with updates := [] }).state.updates
      = (consumed (collectLoop UpdateBranchAsyncInterval s.ticks
          { s with updates := [] }).trace).map toTransBranch ∧
    (∀ r rs, s.store = r :: rs →
      consumed (collectLoop UpdateBranchAsyncInterval s.ticks
        { s with updates := [] }).trace ≠ [] →
      ∃ tl, (flushBranchs UpdateBranchAsyncInterval s).trace
        = (collectLoop UpdateBranchAsyncInterval s.ticks { s with updates := [] }).trace
          ++ Effect.store (StoreCall.UpdateBranches
              ((consumed (collectLoop UpdateBranchAsyncInterval s.ticks
                { s with updates := [] }).trace).map toTransBranch) updateFields) r :: tl) := by
  obtain ⟨t1, t2, t3⟩ := collectLoop_terminates UpdateBranchAsyncInterval s.ticks 9 20 0
    { s with updates := [] } (by simp) (by rw [window_eq]; norm_num)
    (by omega) (by simpa using hclock) hf
  obtain ⟨c1, -, -, -, -, c6, -, -⟩ :=
    collectLoop_spec UpdateBranchAsyncInterval s.ticks { s with updates := [] }
  have c1s : (collectLoop UpdateBranchAsyncInterval s.ticks
      { s with updates := [] }).state.updates
      = (consumed (collectLoop UpdateBranchAsyncInterval s.ticks
          { s with updates := [] }).trace).map toTransBranch := by simpa using c1
  refine ⟨t1, t2, t3, c1s, ?_⟩
  intro r rs hst hne
  have hbody := ((flushBody_cases UpdateBranchAsyncInterval s).resolve_left
    (fun h => h.1 t1)).2
  have hstore : (collectLoop UpdateBranchAsyncInterval s.ticks
      { s with updates := [] }).state.store = r :: rs := by rw [c6]; exact hst
  have hne2 : (collectLoop UpdateBranchAsyncInterval s.ticks
      { s with updates := [] }).state.updates ≠ [] := by
    rw [c1s]; simpa using hne
  obtain ⟨tl, htl⟩ := commitLoop_first_call r rs _ hne2
  rw [hstore] at hbody
  obtain ⟨-, -, -, -, -, -, -, -, o9, o10⟩ := flushBranchs_obs UpdateBranchAsyncInterval s
  by_cases hp : (flushBody UpdateBranchAsyncInterval s).exit = Exit.panicked
  · refine ⟨tl ++ [Effect.recovered], ?_⟩
    rw [o10 hp, hbody]
    simp only [emit_trace, htl, c1s]
    simp
  · refine ⟨tl, ?_⟩
    rw [o9 hp, hbody]
    simp only [emit_trace, htl, c1s]

/-- C5 at a quiet period: one event in the window, eight timed-out polls, and the batch
of one is sent to the Store in the same call. -/
theorem C5_witness :
    (collectLoop UpdateBranchAsyncInterval lowTraffic.ticks
        { lowTraffic with updates := [] }).exit = Exit.returned ∧
    consumed (collectLoop UpdateBranchAsyncInterval lowTraffic.ticks
        { lowTraffic with updates := [] }).trace = [ev 1] ∧
    timeouts (collectLoop UpdateBranchAsyncInterval lowTraffic.ticks
        { lowTraffic with updates := [] }).trace = 8 ∧
    commits (flushBranchs UpdateBranchAsyncInterval lowTraffic).trace
      = [[toTransBranch (ev 1)]] :=
  ⟨(C5_window_cap lowTraffic (by decide) (by decide) (by decide)).1,
    by decide, by decide, by decide⟩

/-! ## C3: size-cap chunking -/

@[simp] theorem emit_nil (r : Run) : r.emit [] = r := rfl

theorem emit_emit (r : Run) (a b : List Effect) : (r.emit a).emit b = r.emit (b ++ a) := by
  simp [Run.emit]

/-- The collection loop does not read the `ticks` field of the state it is given. -/
theorem collectLoop_ticks (W : Int) (ts : List Tick) (q : List branchStatus)
    (u : List TransBranch) (x : List Tick) (st : List StoreResult) :
    collectLoop W ts ⟨q, u, x, st⟩ = collectLoop W ts ⟨q, u, ts, st⟩ := by
  cases ts with
  | nil => simp [collectLoop]
  | cons t ts => simp only [collectLoop]

theorem collectLoop_step_recv (W : Int) (t : Tick) (ts : List Tick) (e : branchStatus)
    (q : List branchStatus) (u : List TransBranch) (x : List Tick) (st : List StoreResult)
    (ht : lowTick W t) (hl : u.length < 20) :
    collectLoop W (t :: ts) ⟨e :: q, u, x, st⟩
      = (collectLoop W ts ⟨q, u ++ [toTransBranch e], ts, st⟩).emit [Effect.recv e] := by
  obtain ⟨h1, h2, h3⟩ := ht
  rw [collectLoop]
  simp [h1, h2, h3, hl]

theorem collectLoop_step_idle (W : Int) (t : Tick) (ts : List Tick)
    (u : List TransBranch) (x : List Tick) (st : List StoreResult)
    (ht : lowTick W t) (hl : u.length < 20) :
    collectLoop W (t :: ts) ⟨[], u, x, st⟩
      = (collectLoop W ts ⟨[], u, ts, st⟩).emit [Effect.after checkInterval] := by
  obtain ⟨h1, h2, h3⟩ := ht
  rw [collectLoop]
  simp [h1, h2, h3, hl]

/-- Receiving a run of queued events under low clock readings. -/
theorem collectLoop_recv (W : Int) (es : List branchStatus) :
    ∀ (low ts : List Tick) (rest : List branchStatus) (u : List TransBranch)
      (x : List Tick) (st : List StoreResult),
      low.length = es.length → (∀ t ∈ low, lowTick W t) →
      u.length + es.length ≤ 20 →
      collectLoop W (low ++ ts) ⟨es ++ rest, u, x, st⟩
        = (collectLoop W ts ⟨rest, u ++ es.map toTransBranch, ts, st⟩).emit
            (es.map Effect.recv) := by
  induction es with
  | nil =>
    intro low ts rest u x st hlen _ _
    have : low = [] := by simpa using hlen
    subst this
    simp only [List.nil_append, List.map_nil, List.append_nil, emit_nil]
    exact collectLoop_ticks W ts rest u x st
  | cons e es ih =>
    intro low ts rest u x st hlen hlow hu
    cases low with
    | nil => simp at hlen
    | cons t low =>
      have hl : u.length < 20 := by simp at hu; omega
      rw [List.cons_append, List.cons_append,
        collectLoop_step_recv W t _ e _ u x st (hlow t (List.mem_cons_self _ _)) hl,
        ih low ts rest (u ++ [toTransBranch e]) (low ++ ts) st (by simpa using hlen)
          (fun y hy => hlow y (List.mem_cons_of_mem _ hy)) (by simp at hu ⊢; omega),
        emit_emit]
      simp

/-- Polling an empty queue under low clock readings. -/
theorem collectLoop_idle (W : Int) (idle : List Tick) :
    ∀ (ts : List Tick) (u : List TransBranch) (x : List Tick) (st : List StoreResult),
      (∀ t ∈ idle, lowTick W t) → u.length < 20 →
      collectLoop W (idle ++ ts) ⟨[], u, x, st⟩
        = (collectLoop W ts ⟨[], u, ts, st⟩).emit
            (List.replicate idle.length (Effect.after checkInterval)) := by
  induction idle with
  | nil =>
    intro ts u x st _ _
    simp only [List.nil_append, List.length_nil, List.replicate_zero, emit_nil]
    exact collectLoop_ticks W ts [] u x st
  | cons t idle ih =>
    intro ts u x st hlow hl
    rw [List.cons_append,
      collectLoop_step_idle W t _ u x st (hlow t (List.mem_cons_self _ _)) hl,
      ih ts u (idle ++ ts) st (fun y hy => hlow y (List.mem_cons_of_mem _ hy)) hl,
      emit_emit]
    simp [List.replicate_succ]

theorem collectLoop_step_full (W : Int) (t : Tick) (ts : List Tick)
    (q : List branchStatus) (u : List TransBranch) (x : List Tick) (st : List StoreResult)
    (ht : lowTick W t) (hl : u.length = 20) :
    collectLoop W (t :: ts) ⟨q, u, x, st⟩
      = ⟨Exit.returned, ⟨q, u, ts, st⟩, [Effect.cut Cut.size]⟩ := by
  obtain ⟨h1, h2, h3⟩ := ht
  rw [collectLoop]
  simp [h1, h2, h3, hl]

theorem collectLoop_step_window (W : Int) (t : Tick) (ts : List Tick)
    (q : List branchStatus) (u : List TransBranch) (x : List Tick) (st : List StoreResult)
    (h1 : ¬ t.elapsed < wrapInt64 (W - checkInterval)) (h2 : t.arrivals = [])
    (h3 : t.fault = Inject.no) :
    collectLoop W (t :: ts) ⟨q, u, x, st⟩
      = ⟨Exit.returned, ⟨q, u, ts, st⟩, [Effect.cut Cut.window]⟩ := by
  rw [collectLoop]
  simp [h1, h2, h3]

theorem commitLoop_empty (rs : List StoreResult) (q : List branchStatus) (x : List Tick)
    (st : List StoreResult) :
    commitLoop rs ⟨q, [], x, st⟩ = ⟨Exit.returned, ⟨q, [], x, rs⟩, []⟩ := by
  cases rs <;> simp [commitLoop]

theorem flushBranchs_of_returned (W : Int) (s : State) (r : Run)
    (h : flushBody W s = r) (hx : r.exit = Exit.returned) : flushBranchs W s = r := by
  unfold flushBranchs RecoverPanic
  rw [h]
  cases hr : r.exit <;> simp_all

/-- A round that finds 20 events queued under low clock readings. -/
theorem flushBranchs_full (W : Int) (rd : Round) (rest : List branchStatus)
    (u0 : List TransBranch) (ts : List Tick) (st : List StoreResult)
    (hc : rd.chunk.length = 20) (ht : rd.ticks.length = 21)
    (hlow : ∀ t ∈ rd.ticks, lowTick W t) :
    flushBranchs W ⟨rd.chunk ++ rest, u0, rd.ticks ++ ts, StoreResult.ok rd.row :: st⟩
      = ⟨Exit.returned, ⟨rest, [], ts, st⟩, fullTrace rd⟩ := by
  have hd : (rd.ticks.drop 20).length = 1 := by simp [ht]
  obtain ⟨t21, ht21⟩ := List.length_eq_one.mp hd
  have hsplit : rd.ticks = rd.ticks.take 20 ++ [t21] := by
    rw [← ht21]; exact (List.take_append_drop 20 rd.ticks).symm
  have hlow1 : ∀ t ∈ rd.ticks.take 20, lowTick W t :=
    fun t h => hlow t (List.mem_of_mem_take h)
  have hlow2 : lowTick W t21 := hlow t21 (by rw [hsplit]; simp)
  have hcol : collectLoop W (rd.ticks ++ ts)
      ⟨rd.chunk ++ rest, [], rd.ticks ++ ts, StoreResult.ok rd.row :: st⟩
      = ⟨Exit.returned, ⟨rest, rd.chunk.map toTransBranch, ts, StoreResult.ok rd.row :: st⟩,
          rd.chunk.map Effect.recv ++ [Effect.cut Cut.size]⟩ := by
    conv_lhs => rw [hsplit, List.append_assoc]
    rw [collectLoop_recv W rd.chunk (rd.ticks.take 20) ([t21] ++ ts) rest [] _ _
      (by simp [ht, hc]) hlow1 (by simp [hc])]
    rw [List.singleton_append, collectLoop_step_full W t21 ts _ _ _ _ hlow2 (by simp [hc])]
    simp [Run.emit]
  apply flushBranchs_of_returned
  · unfold flushBody
    simp only [hcol]
    have := commitLoop_retry [] rd.row st
      ⟨rest, rd.chunk.map toTransBranch, ts, StoreResult.ok rd.row :: st⟩
      (by intro h; have := congrArg List.length h; simp [hc] at this)
    simp only [List.map_nil, List.nil_append, List.flatten_nil] at this
    rw [this]
    simp [Run.emit, fullTrace]
  · rfl

/-- A round that finds fewer than 20 events queued and no arrival until the window has
elapsed. -/
theorem flushBranchs_last (W : Int) (last : List branchStatus) (lowR idle : List Tick)
    (high : Tick) (row : Int) (u0 : List TransBranch) (ts : List Tick)
    (st : List StoreResult)
    (hl : last.length < 20) (hlen : lowR.length = last.length)
    (hlowR : ∀ t ∈ lowR, lowTick W t) (hidle : ∀ t ∈ idle, lowTick W t)
    (h1 : ¬ high.elapsed < wrapInt64 (W - checkInterval)) (h2 : high.arrivals = [])
    (h3 : high.fault = Inject.no) :
    flushBranchs W ⟨last, u0, lowR ++ (idle ++ high :: ts), StoreResult.ok row :: st⟩
      = ⟨Exit.returned, ⟨[], [], ts, if last = [] then StoreResult.ok row :: st else st⟩,
          lastTrace last idle.length row⟩ := by
  have hcol : collectLoop W (lowR ++ (idle ++ high :: ts))
      ⟨last, [], lowR ++ (idle ++ high :: ts), StoreResult.ok row :: st⟩
      = ⟨Exit.returned, ⟨[], last.map toTransBranch, ts, StoreResult.ok row :: st⟩,
          last.map Effect.recv ++
            (List.replicate idle.length (Effect.after checkInterval) ++
              [Effect.cut Cut.window])⟩ := by
    have := collectLoop_recv W last lowR (idle ++ high :: ts) [] []
      (lowR ++ (idle ++ high :: ts)) (StoreResult.ok row :: st) hlen hlowR (by simp; omega)
    rw [List.append_nil] at this
    rw [this, collectLoop_idle W idle (high :: ts) _ _ _ hidle (by simpa using hl),
      collectLoop_step_window W high ts _ _ _ _ h1 h2 h3]
    simp [Run.emit]
  apply flushBranchs_of_returned
  · unfold flushBody
    simp only [hcol]
    by_cases hnil : last = []
    · subst hnil
      simp [commitLoop_empty, Run.emit, lastTrace]
    · have := commitLoop_retry [] row st
        ⟨[], last.map toTransBranch, ts, StoreResult.ok row :: st⟩ (by simpa using hnil)
      simp only [List.map_nil, List.nil_append, List.flatten_nil] at this
      rw [this]
      simp [Run.emit, lastTrace, hnil]
  · rfl

/-- The run of a worker that finds the events of `rounds` and `last` queued. -/
theorem updateBranchAsync_chunks (W : Int) (rounds : List Round) (last : List branchStatus)
    (lowR idle : List Tick) (high : Tick) (row : Int) (ts : List Tick)
    (st : List StoreResult)
    (hr : ∀ rd ∈ rounds, rd.chunk.length = 20 ∧ rd.ticks.length = 21 ∧
      ∀ t ∈ rd.ticks, lowTick W t)
    (hl : last.length < 20) (hlen : lowR.length = last.length)
    (hlowR : ∀ t ∈ lowR, lowTick W t) (hidle : ∀ t ∈ idle, lowTick W t)
    (h1 : ¬ high.elapsed < wrapInt64 (W - checkInterval)) (h2 : high.arrivals = [])
    (h3 : high.fault = Inject.no) (u0 : List TransBranch) :
    updateBranchAsync W (rounds.length + 1)
        ⟨(rounds.map Round.chunk).flatten ++ last, u0,
          (rounds.map Round.ticks).flatten ++ (lowR ++ (idle ++ high :: ts)),
          rounds.map (fun rd => StoreResult.ok rd.row) ++ StoreResult.ok row :: st⟩
      = ⟨Exit.returned, ⟨[], [], ts, if last = [] then StoreResult.ok row :: st else st⟩,
          (rounds.map fullTrace).flatten ++ lastTrace last idle.length row⟩ := by
  induction rounds generalizing u0 with
  | nil =>
    simp only [List.map_nil, List.flatten_nil, List.nil_append, List.length_nil, zero_add]
    rw [updateBranchAsync_succ,
      flushBranchs_last W last lowR idle high row u0 ts st hl hlen hlowR hidle h1 h2 h3]
    simp [updateBranchAsync, Run.emit]
  | cons rd rounds ih =>
    obtain ⟨a1, a2, a3⟩ := hr rd (List.mem_cons_self _ _)
    simp only [List.map_cons, List.flatten_cons, List.append_assoc, List.length_cons,
      List.cons_append]
    rw [updateBranchAsync_succ, flushBranchs_full W rd _ u0 _ _ a1 a2 a3]
    simp only [if_true]
    rw [ih (fun x hx => hr x (List.mem_cons_of_mem _ hx))]
    simp [Run.emit]

theorem commits_recv (es : List branchStatus) (tl : List Effect) :
    commits (es.map Effect.recv ++ tl) = commits tl := by
  induction es with
  | nil => rfl
  | cons e es ih => simpa [commits] using ih

theorem commits_after (j : Nat) (d : Int) (tl : List Effect) :
    commits (List.replicate j (Effect.after d) ++ tl) = commits tl := by
  induction j with
  | zero => rfl
  | succ j ih => simpa [List.replicate_succ, commits] using ih

theorem commitCuts_recv (c : Option Cut) (es : List branchStatus) (tl : List Effect) :
    commitCuts c (es.map Effect.recv ++ tl) = commitCuts c tl := by
  induction es with
  | nil => rfl
  | cons e es ih => simpa [commitCuts] using ih

theorem commitCuts_after (c : Option Cut) (j : Nat) (d : Int) (tl : List Effect) :
    commitCuts c (List.replicate j (Effect.after d) ++ tl) = commitCuts c tl := by
  induction j with
  | zero => rfl
  | succ j ih => simpa [List.replicate_succ, commitCuts] using ih

theorem commits_lastTrace (last : List branchStatus) (j : Nat) (row : Int) :
    commits (lastTrace last j row) = (if last = [] then [] else [last.map toTransBranch]) := by
  unfold lastTrace
  rw [commits_recv, commits_after]
  by_cases h : last = [] <;> simp [h, commits, successfulAttempt]

theorem commitCuts_lastTrace (c : Option Cut) (last : List branchStatus) (j : Nat)
    (row : Int) :
    commitCuts c (lastTrace last j row)
      = (if last = [] then [] else [(some Cut.window, last.length)]) := by
  unfold lastTrace
  rw [commitCuts_recv, commitCuts_after]
  by_cases h : last = [] <;> simp [h, commitCuts, successfulAttempt]

theorem commits_fullTrace (rd : Round) (tl : List Effect) :
    commits (fullTrace rd ++ tl) = rd.chunk.map toTransBranch :: commits tl := by
  unfold fullTrace
  rw [List.append_assoc, commits_recv]
  simp [successfulAttempt, commits]

theorem commitCuts_fullTrace (c : Option Cut) (rd : Round) (tl : List Effect) :
    commitCuts c (fullTrace rd ++ tl)
      = (some Cut.size, rd.chunk.length) :: commitCuts (some Cut.size) tl := by
  unfold fullTrace
  rw [List.append_assoc, commitCuts_recv]
  simp [successfulAttempt, commitCuts]

theorem commits_fullTraces (rounds : List Round) (tl : List Effect) :
    commits ((rounds.map fullTrace).flatten ++ tl)
      = rounds.map (fun rd => rd.chunk.map toTransBranch) ++ commits tl := by
  induction rounds with
  | nil => rfl
  | cons rd rounds ih =>
    simp only [List.map_cons, List.flatten_cons, List.append_assoc, List.cons_append]
    rw [commits_fullTrace, ih]

theorem commitCuts_fullTraces (rounds : List Round) (last : List branchStatus) (j : Nat)
    (row : Int) (hr : ∀ rd ∈ rounds, rd.chunk.length = 20) (c : Option Cut) :
    commitCuts c ((rounds.map fullTrace).flatten ++ lastTrace last j row)
      = List.replicate rounds.length (some Cut.size, 20)
        ++ (if last = [] then [] else [(some Cut.window, last.length)]) := by
  induction rounds generalizing c with
  | nil => simpa using commitCuts_lastTrace c last j row
  | cons rd rounds ih =>
    simp only [List.map_cons, List.flatten_cons, List.append_assoc, List.length_cons,
      List.replicate_succ, List.cons_append]
    rw [commitCuts_fullTrace, ih (fun x hx => hr x (List.mem_cons_of_mem _ hx)),
      hr rd (List.mem_cons_self _ _)]

/-- C3 (amended). For one worker and a Store that always succeeds: when the queue holds
the events of `rounds`, 20 each, followed by the events `last`, fewer than 20, no other
event arrives, the clock stays below the end of the window through the 21 readings of
each round that receives 20 events and through the readings at which the events of `last`
are received, and the window then elapses after some polls of the empty queue, the
worker returns from `rounds.length + 1` rounds having emptied the queue; its effects
are, for each group of 20, the 20 receives followed at once by the cut by the size cap
and the commit of exactly these 20 events, with no timed-out poll, and then the receives
of `last`, the timed-out polls, the cut by the window and, if `last` is not empty, the
commit of exactly the events of `last`.  Every committed batch of 20 is cut by the size
cap, the last one included when `last` is empty; only a batch of fewer than 20 is cut by
the window elapsing. -/
theorem C3_size_cap_chunking (W : Int) (rounds : List Round) (last : List branchStatus)
    (lowR idle : List Tick) (high : Tick) (row : Int) (ts : List Tick)
    (st : List StoreResult)
    (hr : ∀ rd ∈ rounds, rd.chunk.length = 20 ∧ rd.ticks.length = 21 ∧
      ∀ t ∈ rd.ticks, lowTick W t)
    (hl : last.length < 20) (hlen : lowR.length = last.length)
    (hlowR : ∀ t ∈ lowR, lowTick W t) (hidle : ∀ t ∈ idle, lowTick W t)
    (h1 : ¬ high.elapsed < wrapInt64 (W - checkInterval)) (h2 : high.arrivals = [])
    (h3 : high.fault = Inject.no) :
    updateBranchAsync W (rounds.length + 1)
        ⟨(rounds.map Round.chunk).flatten ++ last, [],
          (rounds.map Round.ticks).flatten ++ (lowR ++ (idle ++ high :: ts)),
          rounds.map (fun rd => StoreResult.ok rd.row) ++ StoreResult.ok row :: st⟩
      = ⟨Exit.returned, ⟨[], [], ts, if last = [] then StoreResult.ok row :: st else st⟩,
          (rounds.map fullTrace).flatten ++ lastTrace last idle.length row⟩ ∧
    commits ((rounds.map fullTrace).flatten ++ lastTrace last idle.length row)
      = rounds.map (fun rd => rd.chunk.map toTransBranch)
        ++ (if last = [] then [] else [last.map toTransBranch]) ∧
    commitCuts none ((rounds.map fullTrace).flatten ++ lastTrace last idle.length row)
      = List.replicate rounds.length (some Cut.size, 20)
        ++ (if last = [] then [] else [(some Cut.window, last.length)]) ∧
    committed ((rounds.map fullTrace).flatten ++ lastTrace last idle.length row)
      = ((rounds.map Round.chunk).flatten ++ last).map toTransBranch := by
  have hc := commits_fullTraces rounds (lastTrace last idle.length row)
  rw [commits_lastTrace] at hc
  refine ⟨updateBranchAsync_chunks W rounds last lowR idle high row ts st hr hl hlen hlowR
      hidle h1 h2 h3 [], hc,
    commitCuts_fullTraces rounds last idle.length row (fun rd h => (hr rd h).1) none, ?_⟩
  have hfl : (rounds.map (fun rd => rd.chunk.map toTransBranch)).flatten
      = ((rounds.map Round.chunk).flatten).map toTransBranch := by
    clear hr hc
    induction rounds with
    | nil => rfl
    | cons rd rounds ih => simp [ih]
  rw [committed, hc]
  by_cases hnil : last = []
  · simp [hnil, hfl]
  · simp [hnil, hfl]

/-- C3 at the scenario of the spec: 25 events queued give a first commit of exactly the
first 20, cut by the size cap, and a second commit of the remaining 5, cut by the
window. -/
theorem C3_witness :
    updateBranchAsync UpdateBranchAsyncInterval 2 twentyFiveQueued
      = ⟨Exit.returned, ⟨[], [], [], []⟩,
          fullTrace ⟨evs 1 20, List.replicate 21 (quiet 1000), 20⟩ ++ lastTrace (evs 21 5) 2 5⟩ ∧
    commits (fullTrace ⟨evs 1 20, List.replicate 21 (quiet 1000), 20⟩ ++ lastTrace (evs 21 5) 2 5)
      = [(evs 1 20).map toTransBranch, (evs 21 5).map toTransBranch] ∧
    commitCuts none
        (fullTrace ⟨evs 1 20, List.replicate 21 (quiet 1000), 20⟩ ++ lastTrace (evs 21 5) 2 5)
      = [(some Cut.size, 20), (some Cut.window, 5)] :=
  have h := C3_size_cap_chunking UpdateBranchAsyncInterval
    [⟨evs 1 20, List.replicate 21 (quiet 1000), 20⟩] (evs 21 5)
    (List.replicate 5 (quiet 2000)) [quiet 3000, quiet 20003000] (quiet 180000000) 5 [] []
    (by decide) (by decide) (by decide) (by decide) (by decide) (by decide) (by decide)
    (by decide)
  ⟨h.1, h.2.1, h.2.2.1⟩

/-- C3, counterexample to the claim as stated: with exactly 20 events queued, no arrival
and the clock below the end of the window while they are received, the only committed
batch, hence the last one, holds the 20 events and is cut by the size cap, not by the
window elapsing; the window of the next round elapses on an empty batch and commits
nothing. -/
theorem C3_counterexample :
    (∀ t ∈ twentyQueued.ticks.take 21, lowTick UpdateBranchAsyncInterval t) ∧
    (∀ t ∈ twentyQueued.ticks, t.arrivals = [] ∧ t.fault = Inject.no) ∧
    (updateBranchAsync UpdateBranchAsyncInterval 2 twentyQueued).exit = Exit.returned ∧
    (updateBranchAsync UpdateBranchAsyncInterval 2 twentyQueued).state.updateBranchAsyncChan = [] ∧
    commits (updateBranchAsync UpdateBranchAsyncInterval 2 twentyQueued).trace
      = [(evs 1 20).map toTransBranch] ∧
    commitCuts none (updateBranchAsync UpdateBranchAsyncInterval 2 twentyQueued).trace
      = [(some Cut.size, 20)] ∧
    (commitCuts none (updateBranchAsync UpdateBranchAsyncInterval 2 twentyQueued).trace).getLast?
      ≠ some (some Cut.window, 20) := by
  decide

/-! ## C10: degenerate window -/

theorem collectLoop_degenerate (W : Int) (ts : List Tick) (s : State)
    (hT : wrapInt64 (W - checkInterval) ≤ 0) (hts : ∀ t ∈ ts, 0 ≤ t.elapsed) :
    consumed (collectLoop W ts s).trace = [] ∧ timeouts (collectLoop W ts s).trace = 0 := by
  cases ts with
  | nil => simp [collectLoop, consumed, timeouts]
  | cons t ts =>
    have h0 : (0 : Int) ≤ t.elapsed := hts t (List.mem_cons_self _ _)
    have hw : ¬ t.elapsed < wrapInt64 (W - checkInterval) := by omega
    unfold collectLoop
    by_cases hf : t.fault = Inject.atCheck
    · simp [hf, consumed, timeouts]
    · simp [hf, hw, consumed, timeouts]

theorem flushBody_degenerate (W : Int) (s : State)
    (hT : wrapInt64 (W - checkInterval) ≤ 0) (hts : ∀ t ∈ s.ticks, 0 ≤ t.elapsed) :
    consumed (flushBody W s).trace = [] ∧ timeouts (flushBody W s).trace = 0 := by
  obtain ⟨c1, c2⟩ := collectLoop_degenerate W s.ticks { s with updates := [] } hT hts
  rcases flushBody_cases W s with ⟨_, hb⟩ | ⟨_, hb⟩
  · rw [hb]; exact ⟨c1, c2⟩
  · obtain ⟨m1, m2, -⟩ :=
      commitLoop_spec (collectLoop W s.ticks { s with updates := [] }).state.store
        (collectLoop W s.ticks { s with updates := [] }).state
    rw [hb]
    simp [consumed_append, timeouts_append, c1, c2, m1, m2]

theorem updateBranchAsync_degenerate (W : Int) (n : Nat) (s : State)
    (hT : wrapInt64 (W - checkInterval) ≤ 0) (hts : ∀ t ∈ s.ticks, 0 ≤ t.elapsed) :
    consumed (updateBranchAsync W n s).trace = [] ∧
    timeouts (updateBranchAsync W n s).trace = 0 := by
  induction n generalizing s with
  | zero => simp [updateBranchAsync, consumed, timeouts]
  | succ n ih =>
    obtain ⟨b1, b2⟩ := flushBody_degenerate W s hT hts
    obtain ⟨-, -, -, -, ⟨u1, b5, -⟩, -⟩ := flushBody_spec W s
    obtain ⟨o1, o2, -, -, -, -, o7, -⟩ := flushBranchs_obs W s
    rw [updateBranchAsync_succ]
    split_ifs with hx
    · have hts2 : ∀ t ∈ (flushBranchs W s).state.ticks, 0 ≤ t.elapsed := by
        intro t hm; apply hts; rw [b5, ← o1]; exact List.mem_append_right _ hm
      obtain ⟨i1, i2⟩ := ih (flushBranchs W s).state hts2
      simp [consumed_append, timeouts_append, i1, i2, o2, o7, b1, b2]
    · exact ⟨by rw [o2]; exact b1, by rw [o7]; exact b2⟩

/-- C10 (amended). If `UpdateBranchAsyncInterval` is set to a value `W` that is at most
20ms and at least the smallest int64 plus 20ms, so that `W - checkInterval` does not wrap
around, then `W - checkInterval` is at most 0, the loop condition is false for every
non-negative elapsed time, and whatever the queue, the injected faults and the Store are,
in any number of rounds with non-negative clock readings the worker receives nothing,
polls nothing, calls the Store never, every call of `flushBranchs` ends with an empty
batch, and the queue only grows by the arrivals. -/
theorem C10_degenerate_window (W : Int)
    (hlo : -9223372036854775808 + 20000000 ≤ W) (hhi : W ≤ 20000000)
    (n : Nat) (s : State) (hts : ∀ t ∈ s.ticks, 0 ≤ t.elapsed) :
    wrapInt64 (W - checkInterval) = W - 20000000 ∧
    (∀ d : Int, 0 ≤ d → ¬ d < wrapInt64 (W - checkInterval)) ∧
    (flushBranchs W s).state.updates = [] ∧
    consumed (updateBranchAsync W n s).trace = [] ∧
    timeouts (updateBranchAsync W n s).trace = 0 ∧
    (∀ c r, Effect.store c r ∉ (updateBranchAsync W n s).trace) ∧
    (∃ used, s.ticks = used ++ (updateBranchAsync W n s).state.ticks ∧
      (updateBranchAsync W n s).state.updateBranchAsyncChan = s.updateBranchAsyncChan ++ (used.map Tick.arrivals).flatten) := by
  have hwrap : wrapInt64 (W - checkInterval) = W - 20000000 := by
    rw [checkInterval_eq]
    unfold wrapInt64
    rw [Int.emod_eq_of_lt (by omega) (by omega)]
    omega
  have hT : wrapInt64 (W - checkInterval) ≤ 0 := by rw [hwrap]; omega
  obtain ⟨d1, d2⟩ := updateBranchAsync_degenerate W n s hT hts
  obtain ⟨-, w2, w3, ⟨used, w4, w5⟩, -⟩ := updateBranchAsync_spec W n s
  refine ⟨hwrap, fun d hd => by omega, ?_, d1, d2, ?_, ⟨used, w4, by simpa [d1] using w5⟩⟩
  · obtain ⟨-, -, b3, -⟩ := flushBody_spec W s
    obtain ⟨o1, -⟩ := flushBranchs_obs W s
    rw [(flushBody_degenerate W s hT hts).1] at b3
    rw [o1]
    exact (List.append_eq_nil.mp (by simpa using b3)).2
  · intro c r h
    have hm := mem_storeCalls _ c r h
    rw [w3] at hm
    obtain ⟨b, hb, -⟩ := List.mem_map.mp hm
    obtain ⟨e1, -, ⟨p, q, e3⟩⟩ := w2 b hb
    rw [d1, List.map_nil] at e3
    have : b = [] := (List.append_eq_nil.mp (List.append_eq_nil.mp e3).1).2
    simp [this] at e1

/-- C10 (amended) at a window equal to `checkInterval`: twenty queued events stay queued. -/
theorem C10_witness :
    consumed (updateBranchAsync 20000000 2 twentyQueued).trace = [] ∧
    (∀ c r, Effect.store c r ∉ (updateBranchAsync 20000000 2 twentyQueued).trace) ∧
    (updateBranchAsync 20000000 2 twentyQueued).state.updateBranchAsyncChan = evs 1 20 :=
  have h := C10_degenerate_window 20000000 (by decide) (by decide) 2 twentyQueued (by decide)
  ⟨h.2.2.2.1, h.2.2.2.2.2.1, by decide⟩

/-- C10, counterexample to the claim as stated: the smallest int64 is a value of
`UpdateBranchAsyncInterval` below 20ms for which `UpdateBranchAsyncInterval - checkInterval`
wraps around to a positive duration; the loop condition then holds at elapsed time 0 and
the worker receives the 20 queued events and calls the Store. -/
theorem C10_counterexample :
    (-9223372036854775808 : Int) ≤ 20000000 ∧
    wrapInt64 (-9223372036854775808 - checkInterval) = 9223372036834775808 ∧
    ¬ (wrapInt64 (-9223372036854775808 - checkInterval) ≤ 0) ∧
    (0 : Int) < wrapInt64 (-9223372036854775808 - checkInterval) ∧
    consumed (flushBranchs (-9223372036854775808) twentyQueued).trace = evs 1 20 ∧
    storeCalls (flushBranchs (-9223372036854775808) twentyQueued).trace
      = [StoreCall.UpdateBranches ((evs 1 20).map toTransBranch) updateFields] := by
  decide

/-! ## C6: fault containment -/

/-- A call of `flushBranchs` does not read the batch left by the previous call: line 101
starts from an empty one. -/
theorem flushBranchs_fresh (W : Int) (s : State) (x : List TransBranch) :
    flushBranchs W { s with updates := x } = flushBranchs W s := rfl

theorem updateBranchAsync_fresh (W : Int) (n : Nat) (s : State) (x : List TransBranch) :
    updateBranchAsync W (n + 1) { s with updates := x } = updateBranchAsync W (n + 1) s := by
  rw [updateBranchAsync_succ, updateBranchAsync_succ, flushBranchs_fresh]

/-- C6. When a runtime fault strikes inside one call of `flushBranchs` (in the loop
condition, in the body of the collection loop, or in `UpdateBranches`), the deferred
guard catches it and the call returns normally; no panic ever leaves the worker, whatever
the number of rounds; the worker goes on with the next round; the later rounds are those
of a worker entered with an empty batch on the same queue and environment; and when no
further fault strikes, what the later rounds commit, followed by the batch in flight, is
exactly what they receive, in order, taken from the front of the queue and the later
arrivals. -/
theorem C6_fault_containment (W : Int) (s : State) (n : Nat)
    (hfault : (flushBody W s).exit = Exit.panicked) :
    flushBranchs W s
      = ⟨Exit.returned, (flushBody W s).state, (flushBody W s).trace ++ [Effect.recovered]⟩ ∧
    (∀ m s0, (updateBranchAsync W m s0).exit ≠ Exit.panicked) ∧
    updateBranchAsync W (n + 1) s
      = (updateBranchAsync W n (flushBody W s).state).emit
          ((flushBody W s).trace ++ [Effect.recovered]) ∧
    updateBranchAsync W (n + 1) (flushBody W s).state
      = updateBranchAsync W (n + 1) { (flushBody W s).state with updates := [] } ∧
    ((∀ t ∈ (flushBody W s).state.ticks, t.fault = Inject.no) →
      (∀ r ∈ (flushBody W s).state.store, r ≠ StoreResult.fault) →
      committed (updateBranchAsync W (n + 1) (flushBody W s).state).trace
          ++ (updateBranchAsync W (n + 1) (flushBody W s).state).state.updates
        = (consumed (updateBranchAsync W (n + 1) (flushBody W s).state).trace).map
            toTransBranch ∧
      ((updateBranchAsync W (n + 1) (flushBody W s).state).exit = Exit.returned →
        committed (updateBranchAsync W (n + 1) (flushBody W s).state).trace
          = (consumed (updateBranchAsync W (n + 1) (flushBody W s).state).trace).map
              toTransBranch) ∧
      ∃ used, (flushBody W s).state.ticks
          = used ++ (updateBranchAsync W (n + 1) (flushBody W s).state).state.ticks ∧
        consumed (updateBranchAsync W (n + 1) (flushBody W s).state).trace
            ++ (updateBranchAsync W (n + 1) (flushBody W s).state).state.updateBranchAsyncChan
          = (flushBody W s).state.updateBranchAsyncChan ++ (used.map Tick.arrivals).flatten) := by
  obtain ⟨-, -, -, -, -, -, -, -, -, o10⟩ := flushBranchs_obs W s
  have hfl := o10 hfault
  refine ⟨hfl, fun m s0 => (updateBranchAsync_spec W m s0).1, ?_, ?_, ?_⟩
  · rw [updateBranchAsync_succ, hfl]
    simp
  · exact (updateBranchAsync_fresh W n (flushBody W s).state []).symm
  · intro ht hs
    have hc := updateBranchAsync_conserves W (n + 1)
      { (flushBody W s).state with updates := [] } rfl ht hs
    rw [updateBranchAsync_fresh] at hc
    obtain ⟨-, -, -, w4, -⟩ := updateBranchAsync_spec W (n + 1) (flushBody W s).state
    refine ⟨hc.1, ?_, w4⟩
    intro hx
    have h1 := hc.1
    rw [hc.2 hx] at h1
    simpa using h1

/-- C6 at a concrete fault: the fault strikes after the first event was received; the
call returns, and the second round receives and commits the event that arrived later. -/
theorem C6_witness :
    (flushBody UpdateBranchAsyncInterval faultyRound).exit = Exit.panicked ∧
    flushBranchs UpdateBranchAsyncInterval faultyRound
      = ⟨Exit.returned, (flushBody UpdateBranchAsyncInterval faultyRound).state,
          (flushBody UpdateBranchAsyncInterval faultyRound).trace ++ [Effect.recovered]⟩ ∧
    (updateBranchAsync UpdateBranchAsyncInterval 2 faultyRound).exit = Exit.returned ∧
    commits (updateBranchAsync UpdateBranchAsyncInterval 1
        (flushBody UpdateBranchAsyncInterval faultyRound).state).trace
      = [[toTransBranch (ev 2)]] :=
  ⟨by decide, (C6_fault_containment UpdateBranchAsyncInterval faultyRound 0 (by decide)).1,
    by decide, by decide⟩

/-! ## C9: a fault during commit drops the batch -/

theorem toTransBranch_injective (a b : branchStatus) (h : toTransBranch a = toTransBranch b) :
    a = b := by
  cases a; cases b
  simp only [toTransBranch, TransBranch.mk.injEq, ModelBase.mk.injEq] at h
  simp [h]

theorem commits_subset_batches (es : List Effect) : ∀ b ∈ commits es, b ∈ batches es := by
  induction es with
  | nil => simp [commits]
  | cons x xs ih =>
    intro b hb
    cases x with
    | store c r =>
      cases c with
      | UpdateBranches u f =>
        cases r with
        | ok k =>
          simp only [commits, batches, List.mem_cons] at hb ⊢
          rcases hb with rfl | hb
          · exact Or.inl rfl
          · exact Or.inr (ih b hb)
        | err m => simp only [commits, batches, List.mem_cons] at hb ⊢; exact Or.inr (ih b hb)
        | fault => simp only [commits, batches, List.mem_cons] at hb ⊢; exact Or.inr (ih b hb)
      | PopulateData k => simp only [commits, batches] at hb ⊢; exact ih b hb
    | recv e => simp only [commits, batches] at hb ⊢; exact ih b hb
    | after d => simp only [commits, batches] at hb ⊢; exact ih b hb
    | cut c => simp only [commits, batches] at hb ⊢; exact ih b hb
    | logError m => simp only [commits, batches] at hb ⊢; exact ih b hb
    | logInfo k r => simp only [commits, batches] at hb ⊢; exact ih b hb
    | sleep d => simp only [commits, batches] at hb ⊢; exact ih b hb
    | recovered => simp only [commits, batches] at hb ⊢; exact ih b hb

/-- C9. When the collection loop of a call of `flushBranchs` has returned a non-empty
batch and `UpdateBranches` panics on its first call, the guard ends the call: the trace of
the call is the collection followed by that single Store call and the recovery, with no
retry, no sleep and no commit, and the batch was made of the events received in the call.
In the rounds that follow, every batch sent to the Store is a run of consecutive converted
events received in those rounds, so an event of the dropped batch that is not received
again is in no later commit. -/
theorem C9_fault_in_commit_drops_batch (W : Int) (s : State) (rest : List StoreResult)
    (n : Nat)
    (hc : (collectLoop W s.ticks { s with updates := [] }).exit = Exit.returned)
    (hb : (collectLoop W s.ticks { s with updates := [] }).state.updates ≠ [])
    (hst : s.store = StoreResult.fault :: rest) :
    flushBranchs W s
      = ⟨Exit.returned,
          { (collectLoop W s.ticks { s with updates := [] }).state with store := rest },
          (collectLoop W s.ticks { s with updates := [] }).trace
            ++ [Effect.store (StoreCall.UpdateBranches
                  (collectLoop W s.ticks { s with updates := [] }).state.updates updateFields)
                  StoreResult.fault,
                Effect.recovered]⟩ ∧
    (collectLoop W s.ticks { s with updates := [] }).state.updates
      = (consumed (flushBranchs W s).trace).map toTransBranch ∧
    batches (flushBranchs W s).trace
      = [(collectLoop W s.ticks { s with updates := [] }).state.updates] ∧
    commits (flushBranchs W s).trace = [] ∧
    sleeps (flushBranchs W s).trace = [] ∧
    (∀ b ∈ batches (updateBranchAsync W n (flushBranchs W s).state).trace,
      b <:+: (consumed (updateBranchAsync W n (flushBranchs W s).state).trace).map
        toTransBranch) ∧
    (∀ e, e ∉ consumed (updateBranchAsync W n (flushBranchs W s).state).trace →
      toTransBranch e ∉ committed (updateBranchAsync W n (flushBranchs W s).state).trace) := by
  obtain ⟨c1, c2, c3, c4, c5, c6, -, -⟩ := collectLoop_spec W s.ticks { s with updates := [] }
  have hl : 0 < (collectLoop W s.ticks { s with updates := [] }).state.updates.length :=
    List.length_pos.mpr hb
  have hbody := ((flushBody_cases W s).resolve_left (fun h => h.1 hc)).2
  have hstore : (collectLoop W s.ticks { s with updates := [] }).state.store
      = StoreResult.fault :: rest := by rw [c6]; exact hst
  rw [hstore, commitLoop] at hbody
  simp only [hl, if_true] at hbody
  have hx : (flushBody W s).exit = Exit.panicked := by rw [hbody]; rfl
  have hfl := (flushBranchs_obs W s).2.2.2.2.2.2.2.2.2 hx
  have hflush : flushBranchs W s
      = ⟨Exit.returned,
          { (collectLoop W s.ticks { s with updates := [] }).state with store := rest },
          (collectLoop W s.ticks { s with updates := [] }).trace
            ++ [Effect.store (StoreCall.UpdateBranches
                  (collectLoop W s.ticks { s with updates := [] }).state.updates updateFields)
                  StoreResult.fault,
                Effect.recovered]⟩ := by
    rw [hfl, hbody]
    simp [Run.emit]
  obtain ⟨-, w2, -⟩ := updateBranchAsync_spec W n (flushBranchs W s).state
  refine ⟨hflush, ?_, ?_, ?_, ?_, fun b h => (w2 b h).2.2, ?_⟩
  · rw [hflush]
    simp only [consumed_append, consumed, List.append_nil]
    simpa using c1
  · rw [hflush]; simp [batches_append, c3, batches]
  · rw [hflush]; simp [commits_append, c4, commits]
  · rw [hflush]; simp [sleeps_append, c5, sleeps]
  · intro e he hm
    obtain ⟨b, hbm, hxb⟩ := List.mem_flatten.mp hm
    obtain ⟨-, -, ⟨p, q, hpq⟩⟩ := w2 b (commits_subset_batches _ b hbm)
    have : toTransBranch e
        ∈ (consumed (updateBranchAsync W n (flushBranchs W s).state).trace).map
            toTransBranch := by
      rw [← hpq]; simp [hxb]
    obtain ⟨e2, he2, heq⟩ := List.mem_map.mp this
    exact he (toTransBranch_injective _ _ heq ▸ he2)

/-- C9 at a concrete run: the Store panics on the batch holding the first event and
succeeds afterwards; the first event was received and is in no commit, the second one is
committed. -/
theorem C9_witness :
    consumed (flushBranchs UpdateBranchAsyncInterval faultyStore).trace = [ev 1] ∧
    commits (flushBranchs UpdateBranchAsyncInterval faultyStore).trace = [] ∧
    committed (updateBranchAsync UpdateBranchAsyncInterval 2
        (flushBranchs UpdateBranchAsyncInterval faultyStore).state).trace
      = [toTransBranch (ev 2)] ∧
    toTransBranch (ev 1) ∉ committed (updateBranchAsync UpdateBranchAsyncInterval 2
        (flushBranchs UpdateBranchAsyncInterval faultyStore).state).trace :=
  have h := C9_fault_in_commit_drops_batch UpdateBranchAsyncInterval faultyStore
    [StoreResult.ok 1, StoreResult.ok 1] 2 (by decide) (by decide) (by decide)
  ⟨by decide, h.2.2.2.1, by decide, h.2.2.2.2.2.2 (ev 1) (by decide)⟩

end Dtmsvr
